import Mathlib

/-!
# Verification of the fairness-aware recommendation backend

A shallow embedding, over `ℚ`, of the numeric core of the repository:

* `model_classes.py` — `NeuralCF` (dual-path collaborative-filtering scorer)
  and `CombinedBiasInteractionModule` (joint-bias module, "JBF");
* `train_inital_model.py` — `build_bias_features` and `train_initial`;
* `combined_biases.py` — the interaction-bias (IB) aggregation;
* `utility.py` — `compute_proportional_demographic_bias` and
  `generate_llm_explanation`;
* `fine_tune.py` — `fine_tune_user` and `recommend_and_explain`;
* `main.py` — the empty-ratings guard of the `/fine_tune_recommend` endpoint.

Real-valued library functions with irrational values (`exp`, `sigmoid`,
`sqrt` inside Adam and inside `std`) are passed in as function parameters
`(w expQ sigQ sqQ : ℚ → ℚ)`: every theorem below holds for an arbitrary
instantiation, so in particular for the true real-valued functions.
Machine floats are modelled as exact rationals (no claim below depends on
rounding).  Tensors are modelled as dimension-tagged functions
(`Mat`), matching PyTorch's dense array semantics; pandas tables are
modelled as Lean lists of rows.
-/

namespace Spec2Proof

/-! ## Basic numeric helpers -/

/-- Sum `f 0 + ... + f (n-1)`, the model of a dense dot-product /
matrix-vector loop over a fixed dimension. -/
def sumR (n : ℕ) (f : ℕ → ℚ) : ℚ := ∑ k in Finset.range n, f k

/-- `torch.relu` on a scalar. -/
def reluQ (x : ℚ) : ℚ := max x 0

/-- Derivative of `reluQ` as PyTorch computes it (`0` at the kink). -/
def stepQ (x : ℚ) : ℚ := if 0 < x then 1 else 0

/-- `torch.cat([f, g])` for vectors, with `f` of length `n`. -/
def concatV (n : ℕ) (f g : ℕ → ℚ) : ℕ → ℚ := fun k => if k < n then f k else g (k - n)

/-- A dense matrix (an embedding table / weight tensor): a number of rows,
a number of columns, and the entries.  Reads outside the tagged range are
never performed by the functions below on well-formed inputs. -/
structure Mat where
  rows : ℕ
  cols : ℕ
  entry : ℕ → ℕ → ℚ

/-- `torch.cat([w, v], dim=0)`: append one row at the bottom of a table. -/
def Mat.appendRow (M : Mat) (v : ℕ → ℚ) : Mat :=
  ⟨M.rows + 1, M.cols, fun r c => if r = M.rows then v c else M.entry r c⟩

/-- `w.mean(0)`: the column-wise mean over the existing rows. -/
def Mat.colMean (M : Mat) : ℕ → ℚ :=
  fun c => (sumR M.rows fun r => M.entry r c) / (M.rows : ℚ)

/-- An `nn.Linear(inDim, outDim)` layer. -/
structure LinLayer where
  outDim : ℕ
  inDim : ℕ
  W : ℕ → ℕ → ℚ
  b : ℕ → ℚ

/-- Forward pass of `nn.Linear`. -/
def linFwd (L : LinLayer) (x : ℕ → ℚ) : ℕ → ℚ :=
  fun j => sumR L.inDim (fun k => L.W j k * x k) + L.b j

/-! ## `NeuralCF` (model_classes.py / models.py)

`user_embedding_mlp`, `item_embedding_mlp`, `user_embedding_gmf`,
`item_embedding_gmf` are four embedding tables (`rows × dim`); `mlp` is
`Linear(2*dim, 64) → ReLU → Linear(64, 32) → ReLU` (here `l1`, `l2` with
their dimensions carried as data) and `output_layer` is
`Linear(dim + 32, 1)` (`outW`, `outB`). -/

structure CFModel where
  dim : ℕ
  userMlp : Mat
  itemMlp : Mat
  userGmf : Mat
  itemGmf : Mat
  l1 : LinLayer
  l2 : LinLayer
  outW : ℕ → ℚ
  outB : ℚ

/-- `NeuralCF.forward` for one `(user-row, item-row)` pair of embedding
vectors: concatenate the MLP embeddings, run the two ReLU layers, multiply
the GMF embeddings element-wise, concatenate and apply the output layer. -/
def forwardCore (dim : ℕ) (uMlp iMlp uGmf iGmf : ℕ → ℚ) (l1 l2 : LinLayer)
    (outW : ℕ → ℚ) (outB : ℚ) : ℚ :=
  let x := concatV dim uMlp iMlp
  let h1 := fun j => reluQ (linFwd l1 x j)
  let h2 := fun j => reluQ (linFwd l2 h1 j)
  let z := concatV dim (fun c => uGmf c * iGmf c) h2
  sumR (dim + l2.outDim) (fun k => outW k * z k) + outB

/-- `NeuralCF.forward(user, item)` for a single index pair. -/
def forwardOne (M : CFModel) (u i : ℕ) : ℚ :=
  forwardCore M.dim (M.userMlp.entry u) (M.itemMlp.entry i)
    (M.userGmf.entry u) (M.itemGmf.entry i) M.l1 M.l2 M.outW M.outB

/-! ## `CombinedBiasInteractionModule` (model_classes.py)

Six per-dimension `1 × k` projections `W`, the 15 pairwise element-wise
products of the six latent vectors, concatenation into 21 blocks of size
`k`, then `Linear(21k, h) → ReLU → Linear(h, 1) → Sigmoid`.  The sigmoid
is the parameter `sigQ`. -/

structure JBF where
  k : ℕ
  W : Fin 6 → ℕ → ℚ
  hDim : ℕ
  W1 : ℕ → ℕ → ℚ
  b1 : ℕ → ℚ
  W2 : ℕ → ℚ
  b2 : ℚ

/-- The pair order produced by
`[emb[i] * emb[j] for i in range(6) for j in range(i+1, 6)]`. -/
def jbfPairs : List (Fin 6 × Fin 6) :=
  [(0, 1), (0, 2), (0, 3), (0, 4), (0, 5),
   (1, 2), (1, 3), (1, 4), (1, 5),
   (2, 3), (2, 4), (2, 5),
   (3, 4), (3, 5),
   (4, 5)]

/-- Latent vector of bias dimension `t`:
`act(bias[:, t]) @ W[t]` (a `1 × k` row). -/
def jbfEmb (J : JBF) (bias : Fin 6 → ℚ) (t : Fin 6) : ℕ → ℚ :=
  fun c => reluQ (bias t) * J.W t c

/-- The concatenated `21 k`-wide input
`torch.cat(emb ++ inter, dim=1)` of the interaction layer. -/
def jbfInput (J : JBF) (bias : Fin 6 → ℚ) : ℕ → ℚ := fun idx =>
  let blk := idx / J.k
  let c := idx % J.k
  if h : blk < 6 then jbfEmb J bias ⟨blk, h⟩ c
  else
    let p := jbfPairs.getD (blk - 6) (0, 0)
    jbfEmb J bias p.1 c * jbfEmb J bias p.2 c

/-- `CombinedBiasInteractionModule.forward` on one bias vector:
the scalar fairness penalty. -/
def jbfForward (sigQ : ℚ → ℚ) (J : JBF) (bias : Fin 6 → ℚ) : ℚ :=
  sigQ (sumR J.hDim
      (fun j => J.W2 j *
        reluQ (sumR (21 * J.k) (fun t => J.W1 j t * jbfInput J bias t) + J.b1 j))
    + J.b2)

/-! ## sklearn `LabelEncoder` (as used in fine_tune.py)

`classes_` is a plain array of int labels.  `fit` stores the sorted
distinct labels.  `transform` first checks membership (raising
`ValueError` on unseen labels) and then runs `np.searchsorted`, a binary
search that is only correct when `classes_` is sorted — which matters
because `fine_tune_user` grows `classes_` by `np.append`. -/

structure LEnc where
  classes : List ℤ

/-- `np.searchsorted(a, v, side='left')`: textbook binary search over the
array, trusting (without checking) that `a` is sorted.  Modelled with the
list length as fuel; the loop halves `[lo, hi)` each step exactly as
numpy does. -/
def npSearchGo (a : List ℤ) (v : ℤ) : ℕ → ℕ → ℕ → ℕ
  | 0, lo, _ => lo
  | fuel + 1, lo, hi =>
    if hi ≤ lo then lo
    else
      let mid := (lo + hi) / 2
      if a.getD mid 0 < v then npSearchGo a v fuel (mid + 1) hi
      else npSearchGo a v fuel lo mid

/-- `np.searchsorted(a, v)` with the full range. -/
def npSearch (a : List ℤ) (v : ℤ) : ℕ := npSearchGo a v a.length 0 a.length

/-- `LabelEncoder.transform` on a single label: unseen labels raise
`ValueError`, seen labels are positioned by `np.searchsorted`. -/
def leTransform1 (e : LEnc) (v : ℤ) : Except String ℕ :=
  if v ∈ e.classes then .ok (npSearch e.classes v)
  else .error "ValueError: y contains previously unseen labels"

/-- `LabelEncoder.transform` on a column (sklearn checks the whole array
and raises if any label is unseen). -/
def leTransformList (e : LEnc) : List ℤ → Except String (List ℕ)
  | [] => .ok []
  | v :: vs =>
    match leTransform1 e v with
    | .error msg => .error msg
    | .ok i =>
      match leTransformList e vs with
      | .error msg => .error msg
      | .ok is => .ok (i :: is)

/-- `LabelEncoder.fit`: `classes_ = np.unique(xs)`, the sorted distinct
labels. -/
def leFit (xs : List ℤ) : LEnc :=
  ⟨List.insertionSort (· ≤ ·) xs.dedup⟩

/-! ## The interaction corpus and the bias features
(train_inital_model.py `build_bias_features`, utility.py
`compute_proportional_demographic_bias`, combined_biases.py lines 106-119)

A rating row is one line of `ratings.dat`.  The list order is the
ingestion order of the corpus.  Demographic attribute values are encoded
as integers; a user's missing attribute (or a user absent from `users.dat`,
which a left-merge turns into `NaN`) is `none`. -/

structure RatingRow where
  user : ℤ
  item : ℤ
  rating : ℚ
  ts : ℤ

/-- The sort key of `ratings.sort_values(["UserID", "Timestamp"])`:
lexicographic by user then timestamp.  pandas uses a stable lexsort for a
multi-column key, modelled by `List.insertionSort` (stable). -/
def lexLe (a b : RatingRow) : Prop :=
  a.user < b.user ∨ (a.user = b.user ∧ a.ts ≤ b.ts)

instance : DecidableRel lexLe := fun a b => by
  unfold lexLe; infer_instance

instance : IsTotal RatingRow lexLe where
  total a b := by
    rcases lt_trichotomy a.user b.user with h | h | h
    · exact Or.inl (Or.inl h)
    · rcases le_total a.ts b.ts with h2 | h2
      · exact Or.inl (Or.inr ⟨h, h2⟩)
      · exact Or.inr (Or.inr ⟨h.symm, h2⟩)
    · exact Or.inr (Or.inl h)

instance : IsTrans RatingRow lexLe where
  trans a b c hab hbc := by
    rcases hab with h | ⟨he, ht⟩
    · rcases hbc with h2 | ⟨he2, _⟩
      · exact Or.inl (h.trans h2)
      · exact Or.inl (he2 ▸ h)
    · rcases hbc with h2 | ⟨he2, ht2⟩
      · exact Or.inl (he ▸ h2)
      · exact Or.inr ⟨he.trans he2, ht.trans ht2⟩

/-- Timestamp-ascending order (used per user). -/
def tsLe (a b : RatingRow) : Prop := a.ts ≤ b.ts

instance : DecidableRel tsLe := fun a b => by
  unfold tsLe; infer_instance

instance : IsTotal RatingRow tsLe where
  total a b := le_total a.ts b.ts

instance : IsTrans RatingRow tsLe where
  trans _ _ _ hab hbc := le_trans hab hbc

/-- `ratings.sort_values(["UserID", "Timestamp"])` (stable). -/
def sortedByUserTs (rs : List RatingRow) : List RatingRow :=
  List.insertionSort lexLe rs

/-- `groupby("UserID").cumcount()`: pair each row, in order, with the
number of earlier rows of the same user.  The accumulator carries the
count seen so far for each user. -/
def cumcountAux (cnt : ℤ → ℕ) : List RatingRow → List (RatingRow × ℕ)
  | [] => []
  | x :: xs =>
    (x, cnt x.user) ::
      cumcountAux (fun v => if v = x.user then cnt v + 1 else cnt v) xs

/-- `groupby("UserID").cumcount()` starting from zero. -/
def cumcount (l : List RatingRow) : List (RatingRow × ℕ) :=
  cumcountAux (fun _ => 0) l

/-- combined_biases.py lines 106-118: sort by (user, timestamp), index by
`cumcount`, weight row `idx` by `w idx` (in the source
`np.exp(-0.01 * idx)`, here the abstract decay `w`), and for the pair
`(u, i)` aggregate `sum(rating * weight) / sum(weight)` over the
`groupby(["UserID", "MovieID"])` cell. -/
def ibCode (w : ℕ → ℚ) (rs : List RatingRow) (u i : ℤ) : ℚ :=
  let g := (cumcount (sortedByUserTs rs)).filter
    (fun p => p.1.user == u && p.1.item == i)
  (g.map (fun p => p.1.rating * w p.2)).sum / (g.map (fun p => w p.2)).sum

/-- The user's interactions in timestamp-ascending order (stable in
ingestion order on ties). -/
def userHistory (rs : List RatingRow) (u : ℤ) : List RatingRow :=
  List.insertionSort tsLe (rs.filter (fun x => x.user == u))

/-- The claim's formula: over the user's interactions with item `i`,
each carrying its zero-based recency index in the user's
timestamp-ascending order, the decay-weighted average rating. -/
def ibSpecFormula (w : ℕ → ℚ) (rs : List RatingRow) (u i : ℤ) : ℚ :=
  let g := (userHistory rs u).enum.filter (fun p => p.2.item == i)
  (g.map (fun p => p.2.rating * w p.1)).sum / (g.map (fun p => w p.1)).sum

/-- train_inital_model.py lines 81-87: after the same sort and `cumcount`,
the `IB` column is the raw decay weight `w idx` of each interaction row —
the rating is never multiplied in and duplicate `(user, item)` rows are
not aggregated.  Returns the rows paired with their raw (pre-scaling)
`IB` values. -/
def ibTrainRaw (w : ℕ → ℚ) (rs : List RatingRow) : List (RatingRow × ℚ) :=
  (cumcount (sortedByUserTs rs)).map (fun p => (p.1, w p.2))

/-! ### sklearn `MinMaxScaler` -/

/-- Minimum of a list (0 for the empty list, which is never scaled). -/
def listMin : List ℚ → ℚ
  | [] => 0
  | x :: t => t.foldl min x

/-- Maximum of a list. -/
def listMax : List ℚ → ℚ
  | [] => 0
  | x :: t => t.foldl max x

/-- `MinMaxScaler().fit_transform` on one column: raises
`ValueError` on an empty column (sklearn refuses to fit 0 samples);
otherwise maps `x ↦ (x - min) * scale` with `scale = 1 / (max - min)`,
or `scale = 1` when the column is constant
(sklearn's `_handle_zeros_in_scale`). -/
def minmaxScale (xs : List ℚ) : Except String (List ℚ) :=
  if xs.isEmpty then
    .error "ValueError: Found array with 0 sample(s) while MinMaxScaler requires a minimum of 1"
  else
    let lo := listMin xs
    let hi := listMax xs
    let scale := if hi = lo then 1 else 1 / (hi - lo)
    .ok (xs.map fun x => (x - lo) * scale)

/-! ### Popularity bias -/

/-- `ratings["MovieID"].value_counts()[i]`. -/
def countItem (rs : List RatingRow) (i : ℤ) : ℕ :=
  (rs.filter (fun x => x.item == i)).length

/-- The raw PB column: each row's item interaction count over the total
interaction count (train_inital_model.py lines 74-75). -/
def pbRawCol (rs : List RatingRow) : List ℚ :=
  rs.map (fun x => (countItem rs x.item : ℚ) / (rs.length : ℚ))

/-! ### Proportional demographic bias
(utility.py `compute_proportional_demographic_bias`) -/

/-- `["UserID"].nunique()`: number of distinct users among the rows. -/
def nuniqueUsers (rows : List RatingRow) : ℕ :=
  ((rows.map RatingRow.user).dedup).length

/-- Group size: distinct users with attribute value `v` *among the merged
(= ratings) table* — users who never rated are not counted
(utility.py line 258 groups the merged frame). -/
def groupSizeMerged (attr : ℤ → Option ℤ) (rs : List RatingRow) (v : ℤ) : ℕ :=
  nuniqueUsers (rs.filter (fun x => attr x.user == some v))

/-- Distinct users with attribute value `v` who interacted with item `i`
(utility.py lines 261-265). -/
def groupItemCount (attr : ℤ → Option ℤ) (rs : List RatingRow) (v i : ℤ) : ℕ :=
  nuniqueUsers (rs.filter (fun x => attr x.user == some v && x.item == i))

/-- The raw (pre-scaling) DB value of the `(attribute value, item)` pair:
`GroupInteractionCount / GroupSize` (utility.py lines 268-272). -/
def dbRawPair (attr : ℤ → Option ℤ) (rs : List RatingRow) (v i : ℤ) : ℚ :=
  (groupItemCount attr rs v i : ℚ) / (groupSizeMerged attr rs v : ℚ)

/-- The raw DB value attached back to a rating row: rows whose user has no
attribute value fall out of the groupby, come back as `NaN` from the
left-merge and are `fillna(0.0)`-ed to `0` before scaling. -/
def dbRawRow (attr : ℤ → Option ℤ) (rs : List RatingRow) (x : RatingRow) : ℚ :=
  match attr x.user with
  | none => 0
  | some v => dbRawPair attr rs v x.item

/-- One demographic-bias column.  When the attribute column is missing
from the users table (`present = false`) the function returns an all-`NaN`
column which `build_bias_features` later `fillna(0.0)`-s — modelled as the
all-zero column; otherwise the raw values are min-max scaled. -/
def dbCol (present : Bool) (attr : ℤ → Option ℤ) (rs : List RatingRow) :
    Except String (List ℚ) :=
  if present then minmaxScale (rs.map (dbRawRow attr rs))
  else .ok (rs.map fun _ => 0)

/-- The demographic-bias columns for a list of tracked attributes. -/
def dbCols : List (Bool × (ℤ → Option ℤ)) → List RatingRow →
    Except String (List (List ℚ))
  | [], _ => .ok []
  | (present, attr) :: rest, rs =>
    match dbCol present attr rs with
    | .error msg => .error msg
    | .ok c =>
      match dbCols rest rs with
      | .error msg => .error msg
      | .ok cs => .ok (c :: cs)

/-- train_inital_model.py `build_bias_features`: the six bias columns
(PB, IB, and one DB per tracked attribute — four in the source), each
min-max scaled over the whole corpus.  The rows follow the
`sort_values(["UserID", "Timestamp"])` order the source leaves the frame
in; PB is a per-row function of the item so sorting before or after
computing it yields the same column values. -/
def buildBiasFeatures (w : ℕ → ℚ) (attrs : List (Bool × (ℤ → Option ℤ)))
    (rs : List RatingRow) : Except String (List (List ℚ)) :=
  let s := sortedByUserTs rs
  match minmaxScale (pbRawCol s) with
  | .error msg => .error msg
  | .ok pb =>
    match minmaxScale ((cumcount s).map (fun p => w p.2)) with
    | .error msg => .error msg
    | .ok ib =>
      match dbCols attrs s with
      | .error msg => .error msg
      | .ok dbs => .ok (pb :: ib :: dbs)

/-! ## Fine-tuning (fine_tune.py `fine_tune_user`)

Hyperparameters from fine_tune.py lines 26-29 and the
`torch.optim.Adam(..., lr=0.001)` defaults. -/

def lamFair : ℚ := 1
def ftEpochs : ℕ := 300
def adamLr : ℚ := 1 / 1000
def adamBeta1 : ℚ := 9 / 10
def adamBeta2 : ℚ := 999 / 1000
def adamEps : ℚ := 1 / 100000000

/-- One encoded training example of the fine-tuning batch: user index,
item index, observed rating, and the (constant, since the
`CombinedBiasInteractionModule` is not updated) fairness penalty
`jbf(b)` of the row's bias vector. -/
structure FTExample where
  uIdx : ℕ
  iIdx : ℕ
  rating : ℚ
  pen : ℚ

/-- `d loss / d preds[n]` for `loss = MSELoss()(preds - λ·jbf(b), r)`:
`(2 / N) * (preds[n] - λ·pen[n] - r[n])`. -/
def exD (M : CFModel) (n : ℕ) (e : FTExample) : ℚ :=
  (2 / (n : ℚ)) * (forwardOne M e.uIdx e.iIdx - lamFair * e.pen - e.rating)

/-- Backpropagated gradient of the example's loss term with respect to the
looked-up `user_embedding_gmf` row: through the output layer
(coefficient `outW c` on the GMF block) and the element-wise product
(coefficient `itemGmf i c`). -/
def exGradGmf (M : CFModel) (e : FTExample) (d : ℚ) : ℕ → ℚ :=
  fun c => d * M.outW c * M.itemGmf.entry e.iIdx c

/-- Backpropagated gradient with respect to the looked-up
`user_embedding_mlp` row: through the output layer (MLP block), the two
ReLU layers (PyTorch's ReLU gradient is `0` at `0`), and the
concatenation (first `dim` coordinates). -/
def exGradMlp (M : CFModel) (e : FTExample) (d : ℚ) : ℕ → ℚ :=
  let x := concatV M.dim (M.userMlp.entry e.uIdx) (M.itemMlp.entry e.iIdx)
  let z1 := linFwd M.l1 x
  let h1 := fun j => reluQ (z1 j)
  let z2 := linFwd M.l2 h1
  let dz2 := fun j => d * M.outW (M.dim + j) * stepQ (z2 j)
  let dz1 := fun k => (sumR M.l2.outDim fun j => M.l2.W j k * dz2 j) * stepQ (z1 k)
  fun c => sumR M.l1.outDim fun k => M.l1.W k c * dz1 k

/-- Gradient of the batch loss with respect to the whole
`user_embedding_mlp` table: autograd accumulates each example's row
gradient into the row it indexed, so entry `(r, c)` is the sum over the
examples whose user index is `r`. -/
def gradUserMlp (M : CFModel) (batch : List FTExample) : Mat :=
  ⟨M.userMlp.rows, M.userMlp.cols, fun r c =>
    (batch.map fun e =>
      if e.uIdx = r then exGradMlp M e (exD M batch.length e) c else 0).sum⟩

/-- Gradient of the batch loss with respect to `user_embedding_gmf`. -/
def gradUserGmf (M : CFModel) (batch : List FTExample) : Mat :=
  ⟨M.userGmf.rows, M.userGmf.cols, fun r c =>
    (batch.map fun e =>
      if e.uIdx = r then exGradGmf M e (exD M batch.length e) c else 0).sum⟩

/-- Per-tensor Adam state (`exp_avg`, `exp_avg_sq`). -/
structure AdamSt where
  m : Mat
  v : Mat

/-- Fresh Adam state (zero moments) for a tensor of the given shape. -/
def adamInit (shape : Mat) : AdamSt :=
  ⟨⟨shape.rows, shape.cols, fun _ _ => 0⟩, ⟨shape.rows, shape.cols, fun _ _ => 0⟩⟩

/-- One `torch.optim.Adam` step (`step` count `t`, starting at 1) on one
tensor, element-wise; `sqQ` abstracts the real square root inside
`denom = sqrt(v_hat) + eps`. -/
def adamUpd (sqQ : ℚ → ℚ) (t : ℕ) (w : Mat) (s : AdamSt) (g : Mat) : Mat × AdamSt :=
  let m2 : Mat := ⟨w.rows, w.cols, fun r c =>
    adamBeta1 * s.m.entry r c + (1 - adamBeta1) * g.entry r c⟩
  let v2 : Mat := ⟨w.rows, w.cols, fun r c =>
    adamBeta2 * s.v.entry r c + (1 - adamBeta2) * g.entry r c * g.entry r c⟩
  let w2 : Mat := ⟨w.rows, w.cols, fun r c =>
    w.entry r c -
      adamLr * (m2.entry r c / (1 - adamBeta1 ^ t)) /
        (sqQ (v2.entry r c / (1 - adamBeta2 ^ t)) + adamEps)⟩
  (w2, ⟨m2, v2⟩)

/-- One fine-tuning epoch (fine_tune.py lines 133-139): `zero_grad`,
forward, backward, one Adam step.  Only the two user-embedding tables are
in the optimizer — fine_tune.py line 128 sets
`p.requires_grad = ("user_embedding" in name)` and line 130 filters the
parameters passed to `Adam`, so the item tables, the MLP and output
layers, and all `CombinedBiasInteractionModule` parameters are frozen. -/
def ftStep (sqQ : ℚ → ℚ) (batch : List FTExample) (t : ℕ)
    (st : CFModel × AdamSt × AdamSt) : CFModel × AdamSt × AdamSt :=
  let M := st.1
  let gM := gradUserMlp M batch
  let gG := gradUserGmf M batch
  let pM := adamUpd sqQ t M.userMlp st.2.1 gM
  let pG := adamUpd sqQ t M.userGmf st.2.2 gG
  ({ M with userMlp := pM.1, userGmf := pG.1 }, pM.2, pG.2)

/-- The epoch loop, `n` epochs remaining, next Adam step count `t`. -/
def ftIter (sqQ : ℚ → ℚ) (batch : List FTExample) :
    ℕ → ℕ → (CFModel × AdamSt × AdamSt) → CFModel × AdamSt × AdamSt
  | 0, _, st => st
  | n + 1, t, st => ftIter sqQ batch n (t + 1) (ftStep sqQ batch t st)

/-- The full `FINE_TUNE_EPOCHS`-epoch optimization of the two
user-embedding tables. -/
def ftTrain (sqQ : ℚ → ℚ) (M : CFModel) (batch : List FTExample) : CFModel :=
  (ftIter sqQ batch ftEpochs 1 (M, adamInit M.userMlp, adamInit M.userGmf)).1

/-- One row of the `new_user_ratings` frame. -/
structure RatingInput where
  userId : ℤ
  movieId : ℤ
  rating : ℚ

/-- fine_tune.py `fine_tune_user`.
* If the user id is new, append it to `user_enc.classes_` (`np.append`)
  and append one column-mean row to each user-embedding table.
* Encode the batch's user and movie ids with the (possibly grown)
  encoders — `LabelEncoder.transform` raises on unseen movie ids.
* Join each row to its precomputed bias vector (`merge` on `MovieID`,
  `fillna(0.0)` for movies absent from the bias table), evaluate the
  frozen `CombinedBiasInteractionModule` on it, and run the Adam loop.
Returns the fine-tuned model and the (possibly grown) user encoder. -/
def fineTuneUser (sigQ sqQ : ℚ → ℚ) (M0 : CFModel) (J : JBF)
    (uEnc iEnc : LEnc) (biasLookup : ℤ → Option (Fin 6 → ℚ))
    (newId : ℤ) (ratings : List RatingInput) :
    Except String (CFModel × LEnc) :=
  let M1 : CFModel :=
    if newId ∈ uEnc.classes then M0
    else { M0 with
      userMlp := M0.userMlp.appendRow M0.userMlp.colMean
      userGmf := M0.userGmf.appendRow M0.userGmf.colMean }
  let uEnc1 : LEnc := if newId ∈ uEnc.classes then uEnc else ⟨uEnc.classes ++ [newId]⟩
  match leTransformList uEnc1 (ratings.map (·.userId)) with
  | .error msg => .error msg
  | .ok us =>
    match leTransformList iEnc (ratings.map (·.movieId)) with
    | .error msg => .error msg
    | .ok is =>
      let pens := ratings.map fun x =>
        jbfForward sigQ J (fun c => ((biasLookup x.movieId).getD (fun _ => 0)) c)
      let batch := List.zipWith (fun u pr => FTExample.mk u pr.1 pr.2.1 pr.2.2)
        us (is.zip ((ratings.map (·.rating)).zip pens))
      .ok (ftTrain sqQ M1 batch, uEnc1)

/-! ## Initial training (train_inital_model.py `train_initial`)

`train_initial` fits the two encoders on the corpus and then constructs
`NeuralCF(NUM_EMBEDDING_USERS, num_items, EMBED_DIM)` — the user side has
a *fixed* row count of 7000 (line 26, "Fixed user embedding size")
independent of the user encoder's cardinality, while the item side is
sized from the item encoder.  The 5-epoch Adam loop that follows updates
parameter values element-wise and never changes any tensor's shape, so
the as-constructed shapes are the shapes that get saved; the (random,
then trained) values are abstracted as `ini`. -/

def NUM_EMBEDDING_USERS : ℕ := 7000
def EMBED_DIM : ℕ := 32

/-- The parameter values of a freshly constructed `NeuralCF`. -/
structure CFInit where
  uMlp : ℕ → ℕ → ℚ
  uGmf : ℕ → ℕ → ℚ
  iMlp : ℕ → ℕ → ℚ
  iGmf : ℕ → ℕ → ℚ
  w1 : ℕ → ℕ → ℚ
  bv1 : ℕ → ℚ
  w2 : ℕ → ℕ → ℚ
  bv2 : ℕ → ℚ
  ow : ℕ → ℚ
  ob : ℚ

/-- `NeuralCF.__init__(num_users, num_items, embedding_dim)`. -/
def mkNeuralCF (numUsers numItems dim : ℕ) (ini : CFInit) : CFModel where
  dim := dim
  userMlp := ⟨numUsers, dim, ini.uMlp⟩
  itemMlp := ⟨numItems, dim, ini.iMlp⟩
  userGmf := ⟨numUsers, dim, ini.uGmf⟩
  itemGmf := ⟨numItems, dim, ini.iGmf⟩
  l1 := ⟨64, 2 * dim, ini.w1, ini.bv1⟩
  l2 := ⟨32, 64, ini.w2, ini.bv2⟩
  outW := ini.ow
  outB := ini.ob

/-- train_inital_model.py lines 129-141: fit the encoders on the corpus
and build the model.  Returns (model, user encoder, item encoder). -/
def trainInitialSetup (corpus : List RatingRow) (ini : CFInit) :
    CFModel × LEnc × LEnc :=
  let uEnc := leFit (corpus.map (·.user))
  let iEnc := leFit (corpus.map (·.item))
  (mkNeuralCF NUM_EMBEDDING_USERS iEnc.classes.length EMBED_DIM ini, uEnc, iEnc)

/-! ## Explanation generation (utility.py `generate_llm_explanation`) -/

/-- The placeholder produced by the `except` branch of
`generate_llm_explanation`. -/
def llmFailMsg (e : String) : String := "[LLM generation failed] " ++ e

/-- utility.py lines 202-225: the chat-completion call (abstracted as its
outcome) is wrapped in `try/except Exception`; a successful response is
stripped and returned, any failure is converted to the placeholder
string.  The function is total: no exception crosses its boundary. -/
def generateLLMExplanation (outcome : Except String String) : String :=
  match outcome with
  | .ok s => s.trim
  | .error e => llmFailMsg e

/-! ## Recommendation (fine_tune.py `recommend_and_explain`) -/

/-- One row of `movies.dat` with its `Genres` string pre-split on `|`. -/
structure MovieRow where
  movieId : ℤ
  title : String
  genres : List String

/-- One produced recommendation entry. -/
structure RecResult where
  movieId : ℤ
  title : String
  genres : List String
  eui : Fin 6 → ℚ
  explanation : String

/-- `sorted(set(all genres))` over the movies table (step 2.1). -/
def allGenresOf (movies : List MovieRow) : List String :=
  List.insertionSort (· ≤ ·) (movies.flatMap (·.genres)).dedup

/-- The genre indicator of the movie id `mid` (step 2.2; a movie id
absent from the movies table keeps an all-zero genre row). -/
def genreRow (movies : List MovieRow) (mid : ℤ) (g : String) : ℚ :=
  match movies.find? (fun r => r.movieId == mid) with
  | some r => if g ∈ r.genres then 1 else 0
  | none => 0

/-- `x.std(unbiased=False).clamp(min=0.2)`-based z-scoring of a score
vector (step 2.5); `sqQ` abstracts the real square root inside `std`. -/
def zscore (sqQ : ℚ → ℚ) (xs : List ℚ) : List ℚ :=
  let n : ℚ := (xs.length : ℚ)
  let mean := xs.sum / n
  let varr := (xs.map fun x => (x - mean) * (x - mean)).sum / n
  let std := max (sqQ varr) (1 / 5)
  xs.map fun x => (x - mean) / (std + 1 / 100000000)

/-- The `try` block of step 2 of `recommend_and_explain`: build the genre
matrix, encode the preference movies (`item_encoder.transform` — the step
that raises on ids unknown to the encoder), build the normalized genre
preference vector, compute genre similarities, z-score both signals and
blend with `ALPHA = 0.35`. -/
def genreBlend (sqQ : ℚ → ℚ) (movies : List MovieRow) (iEnc : LEnc)
    (fairPreds : List ℚ) (ratingsInput : List (ℤ × ℚ)) :
    Except String (List ℚ) :=
  let ag := allGenresOf movies
  let numItems := iEnc.classes.length
  let gMat : ℕ → String → ℚ := fun idx g =>
    genreRow movies (iEnc.classes.getD idx 0) g
  let maxSc := listMax (ratingsInput.map (·.2))
  let scs := ratingsInput.map (fun p => p.2 / maxSc)
  match leTransformList iEnc (ratingsInput.map (·.1)) with
  | .error msg => .error msg
  | .ok idxs =>
    let pref : String → ℚ := fun g =>
      ((idxs.zip scs).map fun p => gMat p.1 g * p.2).sum
    let prefSum := (ag.map pref).sum
    let prefN : String → ℚ :=
      if 0 < prefSum then fun g => pref g / prefSum
      else fun _ => 1 / (ag.length : ℚ)
    let sims := (List.range numItems).map fun i =>
      (ag.map fun g => gMat i g * prefN g).sum
    let fz := zscore sqQ fairPreds
    let sz := zscore sqQ sims
    .ok (List.zipWith (fun a b => a + (7 / 20) * b) fz sz)

/-- The ordering of `torch.topk(..., sorted=True)` on score indices:
larger score first, ties by smaller index. -/
def topRel (scores : List ℚ) (a b : ℕ) : Prop :=
  scores.getD b 0 < scores.getD a 0 ∨
    (scores.getD a 0 = scores.getD b 0 ∧ a ≤ b)

instance (scores : List ℚ) : DecidableRel (topRel scores) := fun a b => by
  unfold topRel; infer_instance

/-- `torch.topk(final_scores, top_k).indices` (step 3). -/
def topKIdx (scores : List ℚ) (k : ℕ) : List ℕ :=
  (List.insertionSort (topRel scores) (List.range scores.length)).take k

/-- `get_E_ui`-style softmax of a recommended movie's bias row (step 4):
`exps = exp(v - v.max()); probs = exps / exps.sum()` with a uniform
fallback when the sum is not positive; `expQ` abstracts `np.exp`. -/
def euiOf (expQ : ℚ → ℚ) (biasLookup : ℤ → Option (Fin 6 → ℚ)) (mid : ℤ) :
    Fin 6 → ℚ :=
  let row : Fin 6 → ℚ := (biasLookup mid).getD (fun _ => 0)
  let mx := listMax ((List.finRange 6).map row)
  let ex : Fin 6 → ℚ := fun t => expQ (row t - mx)
  let s := ((List.finRange 6).map ex).sum
  if 0 < s then fun t => ex t / s else fun _ => 1 / 6

/-- utility.py `get_M_i`: the first movies row for the id;
`.iloc[0]` raises when the movie is absent from the movies table. -/
def getMi (movies : List MovieRow) (mid : ℤ) : Except String MovieRow :=
  match movies.find? (fun r => r.movieId == mid) with
  | some r => .ok r
  | none => .error "IndexError: single positional indexer is out-of-bounds"

/-- One entry of the results list (step 4): item context from `get_M_i`
(whose `category` is the first genre), the bias attribution vector, and
the (total, placeholder-on-failure) LLM explanation.  `llm` abstracts the
prompt construction plus chat-completion call for the given movie. -/
def resultFor (expQ : ℚ → ℚ) (biasLookup : ℤ → Option (Fin 6 → ℚ))
    (movies : List MovieRow) (llm : ℤ → Except String String) (mid : ℤ) :
    Except String RecResult :=
  match getMi movies mid with
  | .error msg => .error msg
  | .ok info =>
    .ok { movieId := mid
          title := info.title
          genres := info.genres.take 1
          eui := euiOf expQ biasLookup mid
          explanation := generateLLMExplanation (llm mid) }

/-- The step-4 loop over the recommended ids. -/
def resultsFor (expQ : ℚ → ℚ) (biasLookup : ℤ → Option (Fin 6 → ℚ))
    (movies : List MovieRow) (llm : ℤ → Except String String) :
    List ℤ → Except String (List RecResult)
  | [] => .ok []
  | mid :: rest =>
    match resultFor expQ biasLookup movies llm mid with
    | .error msg => .error msg
    | .ok r =>
      match resultsFor expQ biasLookup movies llm rest with
      | .error msg => .error msg
      | .ok rs => .ok (r :: rs)

/-- Step 1 of `recommend_and_explain`: the fairness-adjusted scores
`fair_preds = model(user, all items) - LAMBDA_FAIR * jbf(bias)`, with the
bias table reindexed over the item classes (`fill_value=0.0`). -/
def fairPredsOf (sigQ : ℚ → ℚ) (M : CFModel) (J : JBF) (iEnc : LEnc)
    (biasLookup : ℤ → Option (Fin 6 → ℚ)) (uid : ℕ) : List ℚ :=
  (List.range iEnc.classes.length).map fun i =>
    forwardOne M uid i -
      lamFair * jbfForward sigQ J
        ((biasLookup (iEnc.classes.getD i 0)).getD (fun _ => 0))

/-- The `final_scores` actually served when a non-empty preference signal
is present: the genre blend if its `try` block succeeds, otherwise
(`except Exception`) the fairness-adjusted scores unchanged. -/
def servedScores (sigQ sqQ : ℚ → ℚ) (M : CFModel) (J : JBF) (iEnc : LEnc)
    (biasLookup : ℤ → Option (Fin 6 → ℚ)) (uid : ℕ) (movies : List MovieRow)
    (ratingsInput : List (ℤ × ℚ)) : List ℚ :=
  match genreBlend sqQ movies iEnc (fairPredsOf sigQ M J iEnc biasLookup uid)
      ratingsInput with
  | .ok fs => fs
  | .error _ => fairPredsOf sigQ M J iEnc biasLookup uid

/-- Step 3: the recommended movie ids,
`item_encoder.inverse_transform(torch.topk(scores, top_k).indices)`. -/
def recIdsOf (iEnc : LEnc) (scores : List ℚ) (k : ℕ) : List ℤ :=
  (topKIdx scores k).map (iEnc.classes.getD · 0)

/-- fine_tune.py `recommend_and_explain`.
* Encode the user id; score the user against every known item and
  subtract `LAMBDA_FAIR` times the joint-bias penalty of each item's bias
  vector (`fairPredsOf`).
* Step 2 assigns `final_scores` only inside
  `if ratings_input and len(ratings_input) > 0:` — on an empty/absent
  preference signal nothing assigns it, and step 3's
  `torch.topk(final_scores, top_k)` raises `UnboundLocalError`
  (modelled as the `none` branch).  Inside the branch, any exception of
  the genre blend is caught and `final_scores = fair_preds`
  (`servedScores`).
* Step 3 ranks, step 4 builds the results. -/
def recommendAndExplain (sigQ sqQ expQ : ℚ → ℚ) (M : CFModel) (J : JBF)
    (uEnc iEnc : LEnc) (biasLookup : ℤ → Option (Fin 6 → ℚ)) (newId : ℤ)
    (movies : List MovieRow) (llm : ℤ → Except String String)
    (ratingsInput : List (ℤ × ℚ)) (topK : ℕ) :
    Except String (List RecResult) :=
  match leTransform1 uEnc newId with
  | .error msg => .error msg
  | .ok uid =>
    let finalScores : Option (List ℚ) :=
      if ratingsInput.isEmpty then none
      else some (servedScores sigQ sqQ M J iEnc biasLookup uid movies ratingsInput)
    match finalScores with
    | none => .error "UnboundLocalError: final_scores referenced before assignment"
    | some fs =>
      resultsFor expQ biasLookup movies llm (recIdsOf iEnc fs topK)

/-! ## The endpoint guard (main.py lines 196-199) -/

/-- main.py `fine_tune_recommend`, lines 196-199: the ratings come from
the request payload; `if not ratings_list: raise HTTPException(400)` —
an absent or empty ratings list is rejected with HTTP 400 *before*
`fine_tune_user` is ever invoked. -/
def fineTuneRecommendGuard (payloadRatings : Option (List RatingInput)) :
    Except ℕ (List RatingInput) :=
  match payloadRatings with
  | none => .error 400
  | some l => if l.isEmpty then .error 400 else .ok l

/-! ## Shared concrete instances used by witnesses and counterexamples -/

/-- A minimal concrete `NeuralCF`: one user row, one item row, embedding
width 1, trivial MLP (both hidden layers of width 0), identity-ish output
layer. -/
def tinyModel : CFModel where
  dim := 1
  userMlp := ⟨1, 1, fun _ _ => 0⟩
  itemMlp := ⟨1, 1, fun _ _ => 0⟩
  userGmf := ⟨1, 1, fun _ _ => 0⟩
  itemGmf := ⟨1, 1, fun _ _ => 0⟩
  l1 := ⟨0, 2, fun _ _ => 0, fun _ => 0⟩
  l2 := ⟨0, 0, fun _ _ => 0, fun _ => 0⟩
  outW := fun _ => 1
  outB := 0

/-- A minimal concrete joint-bias module (`k = 0`, hidden width 0). -/
def tinyJBF : JBF := ⟨0, fun _ _ => 0, 0, fun _ _ => 0, fun _ => 0, fun _ => 0, 0⟩

/-! ## Helper lemmas: the step-4 results loop -/

/-- If every recommended id has a movies row, the step-4 loop succeeds,
returns one entry per id in order, and each entry's explanation is the
(total) `generate_llm_explanation` of its LLM-call outcome. -/
lemma resultsFor_ok (expQ : ℚ → ℚ) (biasLookup : ℤ → Option (Fin 6 → ℚ))
    (movies : List MovieRow) (llm : ℤ → Except String String) :
    ∀ ids : List ℤ,
      (∀ mid ∈ ids, (movies.find? (fun r => r.movieId == mid)).isSome = true) →
      ∃ res, resultsFor expQ biasLookup movies llm ids = .ok res ∧
        res.map (·.movieId) = ids ∧
        ∀ r ∈ res, r.explanation = generateLLMExplanation (llm r.movieId) := by
  intro ids
  induction ids with
  | nil => intro _; exact ⟨[], rfl, rfl, by simp⟩
  | cons mid rest ih =>
    intro h
    obtain ⟨row, hrow⟩ := Option.isSome_iff_exists.mp (h mid (by simp))
    obtain ⟨res, hres, hmap, hexp⟩ := ih (fun m hm => h m (by simp [hm]))
    refine ⟨⟨mid, row.title, row.genres.take 1, euiOf expQ biasLookup mid,
      generateLLMExplanation (llm mid)⟩ :: res, ?_, ?_, ?_⟩
    · simp only [resultsFor, resultFor, getMi, hrow, hres]
    · simp [hmap]
    · intro r hr
      rcases List.mem_cons.mp hr with h1 | h1
      · subst h1; rfl
      · exact hexp r h1

/-- Reduction of `recommend_and_explain` for a known user and a non-empty
preference signal: the result is the step-4 loop over the top-K ids of
the served scores. -/
lemma recommendAndExplain_nonempty (sigQ sqQ expQ : ℚ → ℚ) (M : CFModel)
    (J : JBF) (uEnc iEnc : LEnc) (biasLookup : ℤ → Option (Fin 6 → ℚ))
    (newId : ℤ) (movies : List MovieRow) (llm : ℤ → Except String String)
    (ratingsInput : List (ℤ × ℚ)) (topK : ℕ) (uid : ℕ)
    (huid : leTransform1 uEnc newId = .ok uid) (hne : ratingsInput ≠ []) :
    recommendAndExplain sigQ sqQ expQ M J uEnc iEnc biasLookup newId movies
        llm ratingsInput topK =
      resultsFor expQ biasLookup movies llm
        (recIdsOf iEnc
          (servedScores sigQ sqQ M J iEnc biasLookup uid movies ratingsInput)
          topK) := by
  have hbe : ratingsInput.isEmpty = false := by
    cases ratingsInput with
    | nil => exact absurd rfl hne
    | cons a l => rfl
  unfold recommendAndExplain
  rw [huid]
  simp [hbe]

/-! ## Claim C9 -/

/-- **C9**: whatever the outcome of the external LLM call — in particular
when it fails for any reason — `recommend_and_explain` still returns the
ranked recommendation list: the top-K ids are a function of the scores
only (independent of the LLM), no exception escapes
`generate_llm_explanation`, and a failing call yields the placeholder
string `"[LLM generation failed] ..."` in the corresponding entry. -/
theorem c9_llm_failure_isolated (sigQ sqQ expQ : ℚ → ℚ) (M : CFModel)
    (J : JBF) (uEnc iEnc : LEnc) (biasLookup : ℤ → Option (Fin 6 → ℚ))
    (newId : ℤ) (movies : List MovieRow) (llm : ℤ → Except String String)
    (ratingsInput : List (ℤ × ℚ)) (topK : ℕ) (uid : ℕ)
    (huid : leTransform1 uEnc newId = .ok uid) (hne : ratingsInput ≠ [])
    (hmov : ∀ mid ∈ recIdsOf iEnc
        (servedScores sigQ sqQ M J iEnc biasLookup uid movies ratingsInput)
        topK,
      (movies.find? (fun r => r.movieId == mid)).isSome = true) :
    ∃ res, recommendAndExplain sigQ sqQ expQ M J uEnc iEnc biasLookup newId
        movies llm ratingsInput topK = .ok res ∧
      res.map (·.movieId) = recIdsOf iEnc
        (servedScores sigQ sqQ M J iEnc biasLookup uid movies ratingsInput)
        topK ∧
      ∀ r ∈ res, ∀ e, llm r.movieId = .error e →
        r.explanation = llmFailMsg e := by
  obtain ⟨res, hres, hmap, hexp⟩ := resultsFor_ok expQ biasLookup movies llm _ hmov
  refine ⟨res, ?_, hmap, ?_⟩
  · rw [recommendAndExplain_nonempty sigQ sqQ expQ M J uEnc iEnc biasLookup
      newId movies llm ratingsInput topK uid huid hne, hres]
  · intro r hr e he
    rw [hexp r hr, he]
    rfl

/-- Witness for C9 at a concrete instance whose LLM call always fails
with "timeout". -/
theorem c9_witness :
    leTransform1 ⟨[1]⟩ 1 = .ok 0 ∧
    ∃ res, recommendAndExplain id id id tinyModel tinyJBF ⟨[1]⟩ ⟨[10]⟩
        (fun _ => none) 1 [⟨10, "T", ["g"]⟩] (fun _ => .error "timeout")
        [(10, 5)] 1 = .ok res ∧
      res.map (·.movieId) = recIdsOf ⟨[10]⟩
        (servedScores id id tinyModel tinyJBF ⟨[10]⟩ (fun _ => none) 0
          [⟨10, "T", ["g"]⟩] [(10, 5)]) 1 ∧
      ∀ r ∈ res, ∀ e,
        (fun _ => (.error "timeout" : Except String String)) r.movieId = .error e →
        r.explanation = llmFailMsg e :=
  ⟨rfl, c9_llm_failure_isolated id id id tinyModel tinyJBF ⟨[1]⟩ ⟨[10]⟩
    (fun _ => none) 1 [⟨10, "T", ["g"]⟩] (fun _ => .error "timeout")
    [(10, 5)] 1 0 rfl (by decide) (by decide)⟩

/-! ## Claim C10 -/

/-- **C10**: with a non-empty preference signal, if the genre-similarity
blend raises (e.g. a preference movie id unknown to the item encoder
makes `item_encoder.transform` raise `ValueError`), the exception is
caught by the `except` branch and the function returns the ranking of the
fairness-adjusted scores alone — no error propagates to the caller. -/
theorem c10_blend_exception_caught (sigQ sqQ expQ : ℚ → ℚ) (M : CFModel)
    (J : JBF) (uEnc iEnc : LEnc) (biasLookup : ℤ → Option (Fin 6 → ℚ))
    (newId : ℤ) (movies : List MovieRow) (llm : ℤ → Except String String)
    (ratingsInput : List (ℤ × ℚ)) (topK : ℕ) (uid : ℕ) (e : String)
    (huid : leTransform1 uEnc newId = .ok uid) (hne : ratingsInput ≠ [])
    (hblend : genreBlend sqQ movies iEnc
      (fairPredsOf sigQ M J iEnc biasLookup uid) ratingsInput = .error e)
    (hmov : ∀ mid ∈ recIdsOf iEnc (fairPredsOf sigQ M J iEnc biasLookup uid)
        topK,
      (movies.find? (fun r => r.movieId == mid)).isSome = true) :
    ∃ res, recommendAndExplain sigQ sqQ expQ M J uEnc iEnc biasLookup newId
        movies llm ratingsInput topK = .ok res ∧
      res.map (·.movieId) =
        recIdsOf iEnc (fairPredsOf sigQ M J iEnc biasLookup uid) topK := by
  have hss : servedScores sigQ sqQ M J iEnc biasLookup uid movies ratingsInput
      = fairPredsOf sigQ M J iEnc biasLookup uid := by
    unfold servedScores
    rw [hblend]
  obtain ⟨res, hres, hmap, _⟩ := resultsFor_ok expQ biasLookup movies llm _ hmov
  refine ⟨res, ?_, hmap⟩
  rw [recommendAndExplain_nonempty sigQ sqQ expQ M J uEnc iEnc biasLookup
    newId movies llm ratingsInput topK uid huid hne, hss, hres]

/-- Witness for C10: the preference signal names movie 99, unknown to the
item encoder, so the blend's `transform` raises and the fallback serves
the fairness-only ranking. -/
theorem c10_witness :
    genreBlend id [⟨10, "T", ["g"]⟩] ⟨[10]⟩
      (fairPredsOf id tinyModel tinyJBF ⟨[10]⟩ (fun _ => none) 0)
      [(99, 5)] = .error "ValueError: y contains previously unseen labels" ∧
    ∃ res, recommendAndExplain id id id tinyModel tinyJBF ⟨[1]⟩ ⟨[10]⟩
        (fun _ => none) 1 [⟨10, "T", ["g"]⟩] (fun _ => .ok "fine") [(99, 5)] 1
        = .ok res ∧
      res.map (·.movieId) = recIdsOf ⟨[10]⟩
        (fairPredsOf id tinyModel tinyJBF ⟨[10]⟩ (fun _ => none) 0) 1 :=
  ⟨rfl, c10_blend_exception_caught id id id tinyModel tinyJBF ⟨[1]⟩ ⟨[10]⟩
    (fun _ => none) 1 [⟨10, "T", ["g"]⟩] (fun _ => .ok "fine") [(99, 5)] 1 0
    "ValueError: y contains previously unseen labels" rfl (by decide) rfl
    (by decide)⟩

/-! ## Claim C2 -/

/-- **C2** (code bug): with an empty (or absent) preference signal,
`recommend_and_explain` does not rank by the fairness-adjusted scores —
`final_scores` is assigned only inside
`if ratings_input and len(ratings_input) > 0:`, so step 3's
`torch.topk(final_scores, top_k)` raises `UnboundLocalError`.  Evaluated
here at a concrete instance with `ratings_input = []`. -/
theorem c2_empty_signal_raises :
    recommendAndExplain id id id tinyModel tinyJBF ⟨[1]⟩ ⟨[10]⟩
      (fun _ => none) 1 [⟨10, "T", ["g"]⟩] (fun _ => .ok "fine") [] 6 =
    .error "UnboundLocalError: final_scores referenced before assignment" := rfl

/-! ## Helper lemmas: the fine-tuning loop -/

/-- `ftStep` only replaces the two user-embedding tables (and never
changes a tensor's shape): every other field of the model is untouched —
the Lean image of the `requires_grad` freeze. -/
lemma ftStep_fields (sqQ : ℚ → ℚ) (batch : List FTExample) (t : ℕ)
    (st : CFModel × AdamSt × AdamSt) :
    (ftStep sqQ batch t st).1.dim = st.1.dim ∧
    (ftStep sqQ batch t st).1.itemMlp = st.1.itemMlp ∧
    (ftStep sqQ batch t st).1.itemGmf = st.1.itemGmf ∧
    (ftStep sqQ batch t st).1.l1 = st.1.l1 ∧
    (ftStep sqQ batch t st).1.l2 = st.1.l2 ∧
    (ftStep sqQ batch t st).1.outW = st.1.outW ∧
    (ftStep sqQ batch t st).1.outB = st.1.outB ∧
    (ftStep sqQ batch t st).1.userMlp.rows = st.1.userMlp.rows ∧
    (ftStep sqQ batch t st).1.userMlp.cols = st.1.userMlp.cols ∧
    (ftStep sqQ batch t st).1.userGmf.rows = st.1.userGmf.rows ∧
    (ftStep sqQ batch t st).1.userGmf.cols = st.1.userGmf.cols :=
  ⟨rfl, rfl, rfl, rfl, rfl, rfl, rfl, rfl, rfl, rfl, rfl⟩

/-- Frozen-field preservation through the whole epoch loop. -/
lemma ftIter_fields (sqQ : ℚ → ℚ) (batch : List FTExample) :
    ∀ (n t : ℕ) (st : CFModel × AdamSt × AdamSt),
    (ftIter sqQ batch n t st).1.dim = st.1.dim ∧
    (ftIter sqQ batch n t st).1.itemMlp = st.1.itemMlp ∧
    (ftIter sqQ batch n t st).1.itemGmf = st.1.itemGmf ∧
    (ftIter sqQ batch n t st).1.l1 = st.1.l1 ∧
    (ftIter sqQ batch n t st).1.l2 = st.1.l2 ∧
    (ftIter sqQ batch n t st).1.outW = st.1.outW ∧
    (ftIter sqQ batch n t st).1.outB = st.1.outB ∧
    (ftIter sqQ batch n t st).1.userMlp.rows = st.1.userMlp.rows ∧
    (ftIter sqQ batch n t st).1.userMlp.cols = st.1.userMlp.cols ∧
    (ftIter sqQ batch n t st).1.userGmf.rows = st.1.userGmf.rows ∧
    (ftIter sqQ batch n t st).1.userGmf.cols = st.1.userGmf.cols := by
  intro n
  induction n with
  | zero =>
    intro t st
    exact ⟨rfl, rfl, rfl, rfl, rfl, rfl, rfl, rfl, rfl, rfl, rfl⟩
  | succ k ih =>
    intro t st
    have h1 := ih (t + 1) (ftStep sqQ batch t st)
    have h2 := ftStep_fields sqQ batch t st
    show (ftIter sqQ batch k (t + 1) (ftStep sqQ batch t st)).1.dim = _ ∧ _
    exact ⟨h1.1.trans h2.1,
      h1.2.1.trans h2.2.1,
      h1.2.2.1.trans h2.2.2.1,
      h1.2.2.2.1.trans h2.2.2.2.1,
      h1.2.2.2.2.1.trans h2.2.2.2.2.1,
      h1.2.2.2.2.2.1.trans h2.2.2.2.2.2.1,
      h1.2.2.2.2.2.2.1.trans h2.2.2.2.2.2.2.1,
      h1.2.2.2.2.2.2.2.1.trans h2.2.2.2.2.2.2.2.1,
      h1.2.2.2.2.2.2.2.2.1.trans h2.2.2.2.2.2.2.2.2.1,
      h1.2.2.2.2.2.2.2.2.2.1.trans h2.2.2.2.2.2.2.2.2.2.1,
      h1.2.2.2.2.2.2.2.2.2.2.trans h2.2.2.2.2.2.2.2.2.2.2⟩

/-- A user-embedding row indexed by no example of the batch receives a
zero gradient (`user_embedding_mlp`): autograd only accumulates into
indexed rows. -/
lemma gradUserMlp_entry_eq_zero (M : CFModel) (batch : List FTExample)
    (r c : ℕ) (h : ∀ e ∈ batch, e.uIdx ≠ r) :
    (gradUserMlp M batch).entry r c = 0 := by
  apply List.sum_eq_zero
  intro x hx
  obtain ⟨e, he, hex⟩ := List.mem_map.mp hx
  rw [if_neg (h e he)] at hex
  exact hex.symm

/-- Same for `user_embedding_gmf`. -/
lemma gradUserGmf_entry_eq_zero (M : CFModel) (batch : List FTExample)
    (r c : ℕ) (h : ∀ e ∈ batch, e.uIdx ≠ r) :
    (gradUserGmf M batch).entry r c = 0 := by
  apply List.sum_eq_zero
  intro x hx
  obtain ⟨e, he, hex⟩ := List.mem_map.mp hx
  rw [if_neg (h e he)] at hex
  exact hex.symm

/-- An Adam step at a coordinate whose moments are zero and whose
gradient is zero leaves the weight unchanged and the moments zero —
for any stand-in `sqQ` for the square root, since the update's numerator
is exactly `0`. -/
lemma adamUpd_frozen (sqQ : ℚ → ℚ) (t : ℕ) (w : Mat) (s : AdamSt) (g : Mat)
    (r c : ℕ) (hm : s.m.entry r c = 0) (hv : s.v.entry r c = 0)
    (hg : g.entry r c = 0) :
    (adamUpd sqQ t w s g).1.entry r c = w.entry r c ∧
    (adamUpd sqQ t w s g).2.m.entry r c = 0 ∧
    (adamUpd sqQ t w s g).2.v.entry r c = 0 := by
  refine ⟨?_, ?_, ?_⟩ <;>
    simp [adamUpd, hm, hv, hg, mul_zero, add_zero, zero_div]

/-- The loop invariant of the isolation argument: row `r` of both user
tables still holds its original values and both Adam moments are zero at
row `r`. -/
def FrozenAt (orig : CFModel) (r : ℕ) (st : CFModel × AdamSt × AdamSt) : Prop :=
  (∀ c, st.1.userMlp.entry r c = orig.userMlp.entry r c) ∧
  (∀ c, st.1.userGmf.entry r c = orig.userGmf.entry r c) ∧
  (∀ c, st.2.1.m.entry r c = 0) ∧ (∀ c, st.2.1.v.entry r c = 0) ∧
  (∀ c, st.2.2.m.entry r c = 0) ∧ (∀ c, st.2.2.v.entry r c = 0)

/-- One epoch preserves the invariant for any row not indexed by the
batch. -/
lemma ftStep_frozen (sqQ : ℚ → ℚ) (batch : List FTExample) (t : ℕ)
    (st : CFModel × AdamSt × AdamSt) (orig : CFModel) (r : ℕ)
    (h : ∀ e ∈ batch, e.uIdx ≠ r) (hst : FrozenAt orig r st) :
    FrozenAt orig r (ftStep sqQ batch t st) := by
  obtain ⟨h1, h2, h3, h4, h5, h6⟩ := hst
  have hgM : ∀ c, (gradUserMlp st.1 batch).entry r c = 0 :=
    fun c => gradUserMlp_entry_eq_zero st.1 batch r c h
  have hgG : ∀ c, (gradUserGmf st.1 batch).entry r c = 0 :=
    fun c => gradUserGmf_entry_eq_zero st.1 batch r c h
  refine ⟨fun c => ?_, fun c => ?_, fun c => ?_, fun c => ?_, fun c => ?_,
    fun c => ?_⟩
  · exact ((adamUpd_frozen sqQ t st.1.userMlp st.2.1 (gradUserMlp st.1 batch)
      r c (h3 c) (h4 c) (hgM c)).1).trans (h1 c)
  · exact ((adamUpd_frozen sqQ t st.1.userGmf st.2.2 (gradUserGmf st.1 batch)
      r c (h5 c) (h6 c) (hgG c)).1).trans (h2 c)
  · exact (adamUpd_frozen sqQ t st.1.userMlp st.2.1 (gradUserMlp st.1 batch)
      r c (h3 c) (h4 c) (hgM c)).2.1
  · exact (adamUpd_frozen sqQ t st.1.userMlp st.2.1 (gradUserMlp st.1 batch)
      r c (h3 c) (h4 c) (hgM c)).2.2
  · exact (adamUpd_frozen sqQ t st.1.userGmf st.2.2 (gradUserGmf st.1 batch)
      r c (h5 c) (h6 c) (hgG c)).2.1
  · exact (adamUpd_frozen sqQ t st.1.userGmf st.2.2 (gradUserGmf st.1 batch)
      r c (h5 c) (h6 c) (hgG c)).2.2

/-- The whole loop preserves the invariant. -/
lemma ftIter_frozen (sqQ : ℚ → ℚ) (batch : List FTExample) (orig : CFModel)
    (r : ℕ) (h : ∀ e ∈ batch, e.uIdx ≠ r) :
    ∀ (n t : ℕ) (st : CFModel × AdamSt × AdamSt), FrozenAt orig r st →
      FrozenAt orig r (ftIter sqQ batch n t st) := by
  intro n
  induction n with
  | zero => intro t st hst; exact hst
  | succ k ih =>
    intro t st hst
    exact ih (t + 1) (ftStep sqQ batch t st) (ftStep_frozen sqQ batch t st orig r h hst)

/-- `ftTrain` leaves every user-embedding row not indexed by the batch
bit-for-bit unchanged. -/
lemma ftTrain_frozen (sqQ : ℚ → ℚ) (M : CFModel) (batch : List FTExample)
    (r : ℕ) (h : ∀ e ∈ batch, e.uIdx ≠ r) :
    (∀ c, (ftTrain sqQ M batch).userMlp.entry r c = M.userMlp.entry r c) ∧
    (∀ c, (ftTrain sqQ M batch).userGmf.entry r c = M.userGmf.entry r c) := by
  have h0 : FrozenAt M r (M, adamInit M.userMlp, adamInit M.userGmf) :=
    ⟨fun _ => rfl, fun _ => rfl, fun _ => rfl, fun _ => rfl, fun _ => rfl,
      fun _ => rfl⟩
  have := ftIter_frozen sqQ batch M r h ftEpochs 1
    (M, adamInit M.userMlp, adamInit M.userGmf) h0
  exact ⟨this.1, this.2.1⟩

/-! ## Helper lemmas: the label encoders inside `fine_tune_user` -/

/-- Transforming a column whose every label is `newId` yields the
constant index column. -/
lemma leTransformList_const (e : LEnc) (newId : ℤ) (uNew : ℕ)
    (htr : leTransform1 e newId = .ok uNew) :
    ∀ vs : List ℤ, (∀ v ∈ vs, v = newId) →
      leTransformList e vs = .ok (vs.map fun _ => uNew) := by
  intro vs
  induction vs with
  | nil => intro _; rfl
  | cons v rest ih =>
    intro h
    have hv : v = newId := h v (by simp)
    have hrest := ih (fun x hx => h x (by simp [hx]))
    simp only [leTransformList, hv, htr, hrest, List.map_cons]

/-- `LabelEncoder.transform` raises `ValueError` as soon as the column
contains a label outside `classes_`. -/
lemma leTransformList_error_of_unseen (e : LEnc) :
    ∀ vs : List ℤ, (∃ v ∈ vs, v ∉ e.classes) →
      leTransformList e vs =
        .error "ValueError: y contains previously unseen labels" := by
  intro vs
  induction vs with
  | nil => rintro ⟨v, hv, _⟩; exact absurd hv (by simp)
  | cons x rest ih =>
    rintro ⟨v, hv, hout⟩
    by_cases hx : x ∈ e.classes
    · have hvr : v ∈ rest := by
        rcases List.mem_cons.mp hv with h1 | h1
        · exact absurd (h1 ▸ hx) hout
        · exact h1
      have := ih ⟨v, hvr, hout⟩
      simp only [leTransformList, leTransform1, if_pos hx, this]
    · simp only [leTransformList, leTransform1, if_neg hx]

/-- Reduction of `fine_tune_user` in the new-user case when both encoder
transforms succeed: the encoder gains the appended class, the model gains
the two mean rows and then trains on the encoded batch. -/
lemma fineTuneUser_new_eq (sigQ sqQ : ℚ → ℚ) (M0 : CFModel) (J : JBF)
    (uEnc iEnc : LEnc) (bl : ℤ → Option (Fin 6 → ℚ)) (newId : ℤ)
    (ratings : List RatingInput) (us is : List ℕ)
    (hnew : newId ∉ uEnc.classes)
    (hus : leTransformList ⟨uEnc.classes ++ [newId]⟩ (ratings.map (·.userId))
      = .ok us)
    (his : leTransformList iEnc (ratings.map (·.movieId)) = .ok is) :
    fineTuneUser sigQ sqQ M0 J uEnc iEnc bl newId ratings =
      .ok (ftTrain sqQ
        { M0 with userMlp := M0.userMlp.appendRow M0.userMlp.colMean
                  userGmf := M0.userGmf.appendRow M0.userGmf.colMean }
        (List.zipWith (fun u pr => FTExample.mk u pr.1 pr.2.1 pr.2.2) us
          (is.zip ((ratings.map (·.rating)).zip
            (ratings.map fun x => jbfForward sigQ J
              (fun c => ((bl x.movieId).getD (fun _ => 0)) c))))),
        ⟨uEnc.classes ++ [newId]⟩) := by
  simp only [fineTuneUser, if_neg hnew, hus, his]

/-- Reduction of `fine_tune_user` for an already-known user id: no
append, the original encoder is returned. -/
lemma fineTuneUser_known_eq (sigQ sqQ : ℚ → ℚ) (M0 : CFModel) (J : JBF)
    (uEnc iEnc : LEnc) (bl : ℤ → Option (Fin 6 → ℚ)) (newId : ℤ)
    (ratings : List RatingInput) (us is : List ℕ)
    (hmem : newId ∈ uEnc.classes)
    (hus : leTransformList uEnc (ratings.map (·.userId)) = .ok us)
    (his : leTransformList iEnc (ratings.map (·.movieId)) = .ok is) :
    fineTuneUser sigQ sqQ M0 J uEnc iEnc bl newId ratings =
      .ok (ftTrain sqQ M0
        (List.zipWith (fun u pr => FTExample.mk u pr.1 pr.2.1 pr.2.2) us
          (is.zip ((ratings.map (·.rating)).zip
            (ratings.map fun x => jbfForward sigQ J
              (fun c => ((bl x.movieId).getD (fun _ => 0)) c))))),
        uEnc) := by
  simp only [fineTuneUser, if_pos hmem, hus, his]

/-! ## Claim C4 -/

/-- **C4** (amended): the empty-batch no-op is *not* implemented inside
`fine_tune_user` — it is enforced by the caller: the
`/fine_tune_recommend` endpoint rejects an absent or empty ratings list
with HTTP 400 before `fine_tune_user` is invoked.  `fine_tune_user`
itself, called with an empty batch for an *already-known* user id,
returns the encoder unchanged and every embedding entry bit-for-bit
unchanged (an empty batch yields zero gradients, so 300 Adam steps are
the identity); for a *new* user id it would still append a degenerate
row (see the counterexample). -/
theorem c4_empty_batch (sigQ sqQ : ℚ → ℚ) (M0 : CFModel) (J : JBF)
    (uEnc iEnc : LEnc) (bl : ℤ → Option (Fin 6 → ℚ)) (newId : ℤ)
    (hmem : newId ∈ uEnc.classes) :
    (∀ p : Option (List RatingInput), p = none ∨ p = some [] →
      fineTuneRecommendGuard p = .error 400) ∧
    fineTuneUser sigQ sqQ M0 J uEnc iEnc bl newId [] =
      .ok (ftTrain sqQ M0 [], uEnc) ∧
    (∀ r c, (ftTrain sqQ M0 []).userMlp.entry r c = M0.userMlp.entry r c) ∧
    (∀ r c, (ftTrain sqQ M0 []).userGmf.entry r c = M0.userGmf.entry r c) ∧
    (ftTrain sqQ M0 []).userMlp.rows = M0.userMlp.rows ∧
    (ftTrain sqQ M0 []).userGmf.rows = M0.userGmf.rows ∧
    (ftTrain sqQ M0 []).itemMlp = M0.itemMlp ∧
    (ftTrain sqQ M0 []).itemGmf = M0.itemGmf := by
  have hfr := fun r => ftTrain_frozen sqQ M0 [] r (by simp)
  have hf := ftIter_fields sqQ [] ftEpochs 1 (M0, adamInit M0.userMlp, adamInit M0.userGmf)
  refine ⟨?_, ?_, fun r c => (hfr r).1 c, fun r c => (hfr r).2 c,
    hf.2.2.2.2.2.2.2.1, hf.2.2.2.2.2.2.2.2.2.1, hf.2.1, hf.2.2.1⟩
  · rintro p (rfl | rfl) <;> rfl
  · exact fineTuneUser_known_eq sigQ sqQ M0 J uEnc iEnc bl newId [] [] []
      hmem rfl rfl

/-- Witness for C4 at a concrete known user id. -/
theorem c4_witness :
    (7 : ℤ) ∈ ([5, 7] : List ℤ) ∧
    (fineTuneRecommendGuard (some []) = .error 400) ∧
    fineTuneUser id id tinyModel tinyJBF ⟨[5, 7]⟩ ⟨[10]⟩ (fun _ => none) 7 []
      = .ok (ftTrain id tinyModel [], ⟨[5, 7]⟩) :=
  ⟨by decide,
    (c4_empty_batch id id tinyModel tinyJBF ⟨[5, 7]⟩ ⟨[10]⟩ (fun _ => none) 7
      (by decide)).1 (some []) (Or.inr rfl),
    (c4_empty_batch id id tinyModel tinyJBF ⟨[5, 7]⟩ ⟨[10]⟩ (fun _ => none) 7
      (by decide)).2.1⟩

/-- The user-side append `fine_tune_user` performs even on an empty batch
(used by the C4 counterexample). -/
def c4Appended : CFModel :=
  { tinyModel with
    userMlp := tinyModel.userMlp.appendRow tinyModel.userMlp.colMean
    userGmf := tinyModel.userGmf.appendRow tinyModel.userGmf.colMean }

/-- Counterexample to C4 as stated: for a *new* user id and an empty
ratings batch, `fine_tune_user` is not a no-op — it appends the id to the
user encoder and a degenerate mean-initialized row to each user table. -/
theorem c4_counterexample :
    fineTuneUser id id tinyModel tinyJBF ⟨[5]⟩ ⟨[10]⟩ (fun _ => none) 7 [] =
      .ok (ftTrain id c4Appended [], ⟨[5, 7]⟩) ∧
    (ftTrain id c4Appended []).userMlp.rows = tinyModel.userMlp.rows + 1 ∧
    (ftTrain id c4Appended []).userGmf.rows = tinyModel.userGmf.rows + 1 ∧
    ([5, 7] : List ℤ) ≠ [5] := by
  have hf := ftIter_fields id [] ftEpochs 1
    (c4Appended, adamInit c4Appended.userMlp, adamInit c4Appended.userGmf)
  refine ⟨?_, hf.2.2.2.2.2.2.2.1, hf.2.2.2.2.2.2.2.2.2.1, by decide⟩
  exact fineTuneUser_new_eq id id tinyModel tinyJBF ⟨[5]⟩ ⟨[10]⟩
    (fun _ => none) 7 [] [] [] (by decide) rfl rfl

/-! ## Claim C5 -/

/-- **C5** (amended): a ratings batch containing an item identity unknown
to the item encoder makes `fine_tune_user` fail with sklearn's
`ValueError` from `item_encoder.transform` — there is no
append-with-mean-initialization for items (fine_tune.py's own docstring
says the item encoder is "unchanged"); only the user side is ever grown. -/
theorem c5_unknown_item_rejected (sigQ sqQ : ℚ → ℚ) (M0 : CFModel) (J : JBF)
    (uEnc iEnc : LEnc) (bl : ℤ → Option (Fin 6 → ℚ)) (newId m : ℤ)
    (ratings : List RatingInput) (us : List ℕ)
    (hnew : newId ∉ uEnc.classes)
    (hm : m ∈ ratings.map (·.movieId)) (hunk : m ∉ iEnc.classes)
    (hus : leTransformList ⟨uEnc.classes ++ [newId]⟩ (ratings.map (·.userId))
      = .ok us) :
    fineTuneUser sigQ sqQ M0 J uEnc iEnc bl newId ratings =
      .error "ValueError: y contains previously unseen labels" := by
  have hit := leTransformList_error_of_unseen iEnc (ratings.map (·.movieId))
    ⟨m, hm, hunk⟩
  simp only [fineTuneUser, if_neg hnew, hus, hit]

/-- Witness for C5: user 8 is new, movie 77 is unknown to the item
encoder. -/
theorem c5_witness :
    (8 : ℤ) ∉ ([3] : List ℤ) ∧ (77 : ℤ) ∉ ([20] : List ℤ) ∧
    fineTuneUser id id tinyModel tinyJBF ⟨[3]⟩ ⟨[20]⟩ (fun _ => none) 8
      [⟨8, 77, 2⟩] = .error "ValueError: y contains previously unseen labels" :=
  ⟨by decide, by decide,
    c5_unknown_item_rejected id id tinyModel tinyJBF ⟨[3]⟩ ⟨[20]⟩
      (fun _ => none) 8 77 [⟨8, 77, 2⟩] [1] (by decide) (by decide)
      (by decide) rfl⟩

/-- Counterexample to C5 as stated: at a concrete batch holding the
unknown movie id 99, the call fails (instead of appending 99 to the item
encoder with a mean-initialized row as the claim asserts). -/
theorem c5_counterexample :
    (99 : ℤ) ∉ ([10] : List ℤ) ∧
    fineTuneUser id id tinyModel tinyJBF ⟨[5]⟩ ⟨[10]⟩ (fun _ => none) 7
      [⟨7, 99, 3⟩] = .error "ValueError: y contains previously unseen labels" :=
  ⟨by decide, rfl⟩

/-! ## Claim C3 -/

/-- **C3** (amended): after initial training the *item* table row counts
equal the item-encoder cardinality, but the *user* tables are allocated
with the fixed `NUM_EMBEDDING_USERS = 7000` rows regardless of the user
encoder's cardinality (so the user-side invariant fails in general — see
the counterexample); `fine_tune_user` grows the user encoder and both
user tables in lockstep (+1 each for a new user id) and leaves the item
side untouched, preserving whatever row-count/cardinality difference the
initial training left. -/
theorem c3_rowcounts (corpus : List RatingRow) (ini : CFInit)
    (sigQ sqQ : ℚ → ℚ) (M0 : CFModel) (J : JBF) (uEnc iEnc : LEnc)
    (bl : ℤ → Option (Fin 6 → ℚ)) (newId : ℤ) (ratings : List RatingInput)
    (us is : List ℕ)
    (hnew : newId ∉ uEnc.classes)
    (hus : leTransformList ⟨uEnc.classes ++ [newId]⟩ (ratings.map (·.userId))
      = .ok us)
    (his : leTransformList iEnc (ratings.map (·.movieId)) = .ok is) :
    ((trainInitialSetup corpus ini).1.itemMlp.rows =
        (trainInitialSetup corpus ini).2.2.classes.length ∧
      (trainInitialSetup corpus ini).1.itemGmf.rows =
        (trainInitialSetup corpus ini).2.2.classes.length ∧
      (trainInitialSetup corpus ini).1.userMlp.rows = NUM_EMBEDDING_USERS ∧
      (trainInitialSetup corpus ini).1.userGmf.rows = NUM_EMBEDDING_USERS) ∧
    ∃ Mf, fineTuneUser sigQ sqQ M0 J uEnc iEnc bl newId ratings =
        .ok (Mf, ⟨uEnc.classes ++ [newId]⟩) ∧
      Mf.userMlp.rows = M0.userMlp.rows + 1 ∧
      Mf.userGmf.rows = M0.userGmf.rows + 1 ∧
      (uEnc.classes ++ [newId]).length = uEnc.classes.length + 1 ∧
      Mf.itemMlp = M0.itemMlp ∧ Mf.itemGmf = M0.itemGmf := by
  refine ⟨⟨rfl, rfl, rfl, rfl⟩, ?_⟩
  set M1 : CFModel :=
    { M0 with userMlp := M0.userMlp.appendRow M0.userMlp.colMean
              userGmf := M0.userGmf.appendRow M0.userGmf.colMean } with hM1
  set batch := List.zipWith (fun u pr => FTExample.mk u pr.1 pr.2.1 pr.2.2) us
    (is.zip ((ratings.map (·.rating)).zip
      (ratings.map fun x => jbfForward sigQ J
        (fun c => ((bl x.movieId).getD (fun _ => 0)) c)))) with hbatch
  have hf := ftIter_fields sqQ batch ftEpochs 1
    (M1, adamInit M1.userMlp, adamInit M1.userGmf)
  refine ⟨ftTrain sqQ M1 batch,
    fineTuneUser_new_eq sigQ sqQ M0 J uEnc iEnc bl newId ratings us is hnew
      hus his, ?_, ?_, by simp, hf.2.1, hf.2.2.1⟩
  · exact hf.2.2.2.2.2.2.2.1
  · exact hf.2.2.2.2.2.2.2.2.2.1

/-- Witness for C3 at a concrete new-user adaptation. -/
theorem c3_witness :
    (7 : ℤ) ∉ ([5] : List ℤ) ∧
    ∃ Mf, fineTuneUser id id tinyModel tinyJBF ⟨[5]⟩ ⟨[10]⟩ (fun _ => none) 7
        [⟨7, 10, 3⟩] = .ok (Mf, ⟨[5, 7]⟩) ∧
      Mf.userMlp.rows = tinyModel.userMlp.rows + 1 ∧
      Mf.userGmf.rows = tinyModel.userGmf.rows + 1 ∧
      ([5, 7] : List ℤ).length = ([5] : List ℤ).length + 1 ∧
      Mf.itemMlp = tinyModel.itemMlp ∧ Mf.itemGmf = tinyModel.itemGmf :=
  ⟨by decide,
    (c3_rowcounts [] ⟨fun _ _ => 0, fun _ _ => 0, fun _ _ => 0, fun _ _ => 0,
        fun _ _ => 0, fun _ => 0, fun _ _ => 0, fun _ => 0, fun _ => 0, 0⟩
      id id tinyModel tinyJBF ⟨[5]⟩ ⟨[10]⟩ (fun _ => none) 7 [⟨7, 10, 3⟩]
      [1] [0] (by decide) rfl rfl).2⟩

/-- Counterexample to C3 as stated: for a two-user corpus, initial
training allocates 7000 user-embedding rows while the user encoder holds
2 identities — the row count does not equal the encoder cardinality. -/
theorem c3_counterexample :
    (trainInitialSetup [⟨1, 10, 5, 0⟩, ⟨2, 10, 4, 1⟩]
        ⟨fun _ _ => 0, fun _ _ => 0, fun _ _ => 0, fun _ _ => 0,
          fun _ _ => 0, fun _ => 0, fun _ _ => 0, fun _ => 0, fun _ => 0, 0⟩).1.userMlp.rows
      = 7000 ∧
    (trainInitialSetup [⟨1, 10, 5, 0⟩, ⟨2, 10, 4, 1⟩]
        ⟨fun _ _ => 0, fun _ _ => 0, fun _ _ => 0, fun _ _ => 0,
          fun _ _ => 0, fun _ => 0, fun _ _ => 0, fun _ => 0, fun _ => 0, 0⟩).2.1.classes.length
      = 2 ∧
    (7000 : ℕ) ≠ 2 := by
  refine ⟨rfl, ?_, by decide⟩
  rfl

/-! ## Claim C8 -/

/-- Attribute lookup through a users table (the merge key of
`ratings.merge(users_df[["UserID", field]], on="UserID", how="left")`). -/
def lookupAttr (usersT : List (ℤ × Option ℤ)) : ℤ → Option ℤ := fun u =>
  match usersT.find? (fun p => p.1 == u) with
  | some p => p.2
  | none => none

/-- The claim's reading of the group size: distinct users *of the users
table* holding attribute value `v` (whether or not they ever rated). -/
def groupSizeTable (usersT : List (ℤ × Option ℤ)) (v : ℤ) : ℕ :=
  (((usersT.filter (fun p => p.2 == some v)).map (·.1)).dedup).length

/-- The claim's formula `m / |G|` with `|G|` taken from the users table. -/
def dbClaimFormula (usersT : List (ℤ × Option ℤ)) (rs : List RatingRow)
    (v i : ℤ) : ℚ :=
  (groupItemCount (lookupAttr usersT) rs v i : ℚ) /
    (groupSizeTable usersT v : ℚ)

/-- The raters with value `v` form exactly the corpus users with value
`v`. -/
lemma toFinset_filter_attr (attr : ℤ → Option ℤ) (rs : List RatingRow)
    (v : ℤ) :
    ((rs.filter (fun x => attr x.user == some v)).map RatingRow.user).toFinset
      = (rs.map RatingRow.user).toFinset.filter (fun u => attr u = some v) := by
  ext u
  simp only [List.mem_toFinset, List.mem_map, List.mem_filter,
    Finset.mem_filter, beq_iff_eq]
  constructor
  · rintro ⟨x, ⟨hx, hattr⟩, hu⟩
    exact ⟨⟨x, hx, hu⟩, hu ▸ hattr⟩
  · rintro ⟨⟨x, hx, hu⟩, hattr⟩
    exact ⟨x, ⟨hx, hu ▸ hattr⟩, hu⟩

/-- The raters of item `i` with value `v` form exactly the corpus users
with value `v` who interacted with `i`. -/
lemma toFinset_filter_attr_item (attr : ℤ → Option ℤ) (rs : List RatingRow)
    (v i : ℤ) :
    ((rs.filter (fun x => attr x.user == some v && x.item == i)).map
        RatingRow.user).toFinset
      = (rs.map RatingRow.user).toFinset.filter
          (fun u => attr u = some v ∧ ∃ x ∈ rs, x.user = u ∧ x.item = i) := by
  ext u
  simp only [List.mem_toFinset, List.mem_map, List.mem_filter,
    Finset.mem_filter, Bool.and_eq_true, beq_iff_eq]
  constructor
  · rintro ⟨x, ⟨hx, hattr, hitem⟩, hu⟩
    exact ⟨⟨x, hx, hu⟩, hu ▸ hattr, x, hx, hu, hitem⟩
  · rintro ⟨⟨y, hy, hyu⟩, hattr, x, hx, hxu, hxi⟩
    exact ⟨x, ⟨hx, hxu ▸ hattr, hxi⟩, hxu⟩

/-- **C8** (amended): the pre-normalization DB value of the pair `(v, i)`
equals `m / |G|` where both `m` (distinct users with value `v` who
interacted with `i`) and `|G|` (distinct users with value `v`) are
counted *over the users appearing in the ratings corpus* — users of the
attribute group who never rated do not enter the denominator (the group
sizes are taken from the merged frame, utility.py line 258). -/
theorem c8_db_proportion (attr : ℤ → Option ℤ) (rs : List RatingRow)
    (v i : ℤ) (hpos : 0 < groupSizeMerged attr rs v) :
    dbRawPair attr rs v i =
      (((rs.map RatingRow.user).toFinset.filter
          (fun u => attr u = some v ∧ ∃ x ∈ rs, x.user = u ∧ x.item = i)).card : ℚ) /
      (((rs.map RatingRow.user).toFinset.filter
          (fun u => attr u = some v)).card : ℚ) ∧
    0 < ((rs.map RatingRow.user).toFinset.filter
        (fun u => attr u = some v)).card := by
  have hsz : groupSizeMerged attr rs v =
      ((rs.map RatingRow.user).toFinset.filter
        (fun u => attr u = some v)).card := by
    unfold groupSizeMerged nuniqueUsers
    rw [← List.card_toFinset, toFinset_filter_attr]
  have hcnt : groupItemCount attr rs v i =
      ((rs.map RatingRow.user).toFinset.filter
        (fun u => attr u = some v ∧ ∃ x ∈ rs, x.user = u ∧ x.item = i)).card := by
    unfold groupItemCount nuniqueUsers
    rw [← List.card_toFinset, toFinset_filter_attr_item]
  constructor
  · unfold dbRawPair
    rw [hsz, hcnt]
  · exact hsz ▸ hpos

/-- The users table of the C8 counterexample: two users, both holding
attribute value 7; only user 1 ever rates. -/
def c8Users : List (ℤ × Option ℤ) := [(1, some 7), (2, some 7)]

/-- The one-interaction corpus of the C8 counterexample. -/
def c8Corpus : List RatingRow := [⟨1, 10, 5, 0⟩]

/-- Witness for C8 at the same concrete corpus. -/
theorem c8_witness :
    0 < groupSizeMerged (lookupAttr c8Users) c8Corpus 7 ∧
    (dbRawPair (lookupAttr c8Users) c8Corpus 7 10 =
        (((c8Corpus.map RatingRow.user).toFinset.filter
            (fun u => lookupAttr c8Users u = some 7 ∧
              ∃ x ∈ c8Corpus, x.user = u ∧ x.item = 10)).card : ℚ) /
        (((c8Corpus.map RatingRow.user).toFinset.filter
            (fun u => lookupAttr c8Users u = some 7)).card : ℚ) ∧
      0 < ((c8Corpus.map RatingRow.user).toFinset.filter
          (fun u => lookupAttr c8Users u = some 7)).card) :=
  ⟨by decide, c8_db_proportion (lookupAttr c8Users) c8Corpus 7 10 (by decide)⟩

/-- Counterexample to C8 as stated: with `|G|` read off the users table
(two users hold value 7) but only one of them present in the corpus, the
code computes `DB = 1/1 = 1` while the claim's formula gives `1/2`. -/
theorem c8_counterexample :
    0 < groupSizeTable c8Users 7 ∧
    dbRawPair (lookupAttr c8Users) c8Corpus 7 10 = 1 ∧
    dbClaimFormula c8Users c8Corpus 7 10 = 1 / 2 ∧
    dbRawPair (lookupAttr c8Users) c8Corpus 7 10 ≠
      dbClaimFormula c8Users c8Corpus 7 10 := by
  have h1 : groupItemCount (lookupAttr c8Users) c8Corpus 7 10 = 1 := by decide
  have h2 : groupSizeMerged (lookupAttr c8Users) c8Corpus 7 = 1 := by decide
  have h3 : groupSizeTable c8Users 7 = 2 := by decide
  unfold dbRawPair dbClaimFormula
  rw [h1, h2, h3]
  norm_num

/-! ## Helper lemmas: list minimum / maximum and `MinMaxScaler` bounds -/

lemma foldl_min_le_init (t : List ℚ) (a : ℚ) : t.foldl min a ≤ a := by
  induction t generalizing a with
  | nil => exact le_refl a
  | cons x xs ih => exact le_trans (ih (min a x)) (min_le_left a x)

lemma foldl_min_le_mem (t : List ℚ) (a x : ℚ) (hx : x ∈ t) :
    t.foldl min a ≤ x := by
  induction t generalizing a with
  | nil => cases hx
  | cons y ys ih =>
    rcases List.mem_cons.mp hx with rfl | h
    · exact le_trans (foldl_min_le_init ys (min a x)) (min_le_right a x)
    · exact ih (min a y) h

lemma init_le_foldl_max (t : List ℚ) (a : ℚ) : a ≤ t.foldl max a := by
  induction t generalizing a with
  | nil => exact le_refl a
  | cons x xs ih => exact le_trans (le_max_left a x) (ih (max a x))

lemma mem_le_foldl_max (t : List ℚ) (a x : ℚ) (hx : x ∈ t) :
    x ≤ t.foldl max a := by
  induction t generalizing a with
  | nil => cases hx
  | cons y ys ih =>
    rcases List.mem_cons.mp hx with rfl | h
    · exact le_trans (le_max_right a x) (init_le_foldl_max ys (max a x))
    · exact ih (max a y) h

lemma listMin_le_of_mem {xs : List ℚ} {x : ℚ} (hx : x ∈ xs) :
    listMin xs ≤ x := by
  cases xs with
  | nil => cases hx
  | cons y ys =>
    rcases List.mem_cons.mp hx with rfl | h
    · exact foldl_min_le_init ys x
    · exact foldl_min_le_mem ys y x h

lemma le_listMax_of_mem {xs : List ℚ} {x : ℚ} (hx : x ∈ xs) :
    x ≤ listMax xs := by
  cases xs with
  | nil => cases hx
  | cons y ys =>
    rcases List.mem_cons.mp hx with rfl | h
    · exact init_le_foldl_max ys x
    · exact mem_le_foldl_max ys y x h

/-- `MinMaxScaler().fit_transform` on a non-empty column succeeds, keeps
the length, and lands every value in `[0, 1]`. -/
lemma minmaxScale_ok (xs : List ℚ) (hne : xs ≠ []) :
    ∃ ys, minmaxScale xs = .ok ys ∧ ys.length = xs.length ∧
      ∀ y ∈ ys, 0 ≤ y ∧ y ≤ 1 := by
  have hbe : xs.isEmpty = false := by
    cases xs with
    | nil => exact absurd rfl hne
    | cons a l => rfl
  refine ⟨xs.map fun x => (x - listMin xs) *
      (if listMax xs = listMin xs then 1 else 1 / (listMax xs - listMin xs)),
    by simp only [minmaxScale, hbe, Bool.false_eq_true, if_false], by simp, ?_⟩
  intro y hy
  obtain ⟨x, hx, rfl⟩ := List.mem_map.mp hy
  have h1 := listMin_le_of_mem hx
  have h2 := le_listMax_of_mem hx
  by_cases hc : listMax xs = listMin xs
  · rw [if_pos hc]
    have hxeq : x = listMin xs := le_antisymm (hc ▸ h2) h1
    rw [hxeq]
    norm_num
  · rw [if_neg hc]
    have hlt : listMin xs < listMax xs :=
      lt_of_le_of_ne (h1.trans h2) (Ne.symm hc)
    rw [mul_one_div]
    constructor
    · exact div_nonneg (by linarith) (by linarith)
    · rw [div_le_one (by linarith)]
      linarith

/-- `cumcount` pairs every row exactly once. -/
lemma cumcountAux_length (l : List RatingRow) :
    ∀ cnt, (cumcountAux cnt l).length = l.length := by
  induction l with
  | nil => intro _; rfl
  | cons x xs ih => intro cnt; simp [cumcountAux, ih]

/-- A demographic-bias column over a non-empty corpus is all `[0, 1]`. -/
lemma dbCol_ok (present : Bool) (attr : ℤ → Option ℤ) (rs : List RatingRow)
    (hne : rs ≠ []) :
    ∃ c, dbCol present attr rs = .ok c ∧ ∀ x ∈ c, 0 ≤ x ∧ x ≤ 1 := by
  unfold dbCol
  cases present with
  | false =>
    refine ⟨rs.map fun _ => 0, by simp, ?_⟩
    intro x hx
    obtain ⟨_, _, rfl⟩ := List.mem_map.mp hx
    norm_num
  | true =>
    obtain ⟨ys, h, _, hb⟩ := minmaxScale_ok (rs.map (dbRawRow attr rs))
      (by simp [hne])
    exact ⟨ys, by simpa using h, hb⟩

/-- All demographic-bias columns over a non-empty corpus are `[0, 1]`. -/
lemma dbCols_ok (attrs : List (Bool × (ℤ → Option ℤ))) (rs : List RatingRow)
    (hne : rs ≠ []) :
    ∃ dbs, dbCols attrs rs = .ok dbs ∧ dbs.length = attrs.length ∧
      ∀ col ∈ dbs, ∀ x ∈ col, 0 ≤ x ∧ x ≤ 1 := by
  induction attrs with
  | nil => exact ⟨[], rfl, rfl, by simp⟩
  | cons pa rest ih =>
    obtain ⟨present, attr⟩ := pa
    obtain ⟨dbs, h1, h2, h3⟩ := ih
    obtain ⟨c, hc, hcb⟩ := dbCol_ok present attr rs hne
    refine ⟨c :: dbs, ?_, by simp [h2], ?_⟩
    · simp only [dbCols, hc, h1]
    · intro col hcol
      rcases List.mem_cons.mp hcol with rfl | h
      · exact hcb
      · exact h3 col h

/-! ## Claim C7 -/

/-- **C7** (amended): for any *non-empty* corpus, `build_bias_features`
succeeds and every value of each of its bias columns (PB, IB, and one DB
per tracked attribute — six columns for the four tracked attributes) lies
in `[0, 1]`.  For the empty corpus the build does *not* produce all-zero
biases: it raises, because `MinMaxScaler` refuses to fit 0 samples (see
the counterexample). -/
theorem c7_bias_bounds (w : ℕ → ℚ) (attrs : List (Bool × (ℤ → Option ℤ)))
    (rs : List RatingRow) (hne : rs ≠ []) :
    ∃ cols, buildBiasFeatures w attrs rs = .ok cols ∧
      cols.length = attrs.length + 2 ∧
      ∀ col ∈ cols, ∀ x ∈ col, 0 ≤ x ∧ x ≤ 1 := by
  have hs : sortedByUserTs rs ≠ [] := by
    intro h
    have hlen := List.length_insertionSort lexLe rs
    rw [show List.insertionSort lexLe rs = sortedByUserTs rs from rfl, h] at hlen
    exact hne (List.length_eq_zero.mp hlen.symm)
  obtain ⟨pb, hpbe, _, hpbb⟩ := minmaxScale_ok (pbRawCol (sortedByUserTs rs))
    (by simp [pbRawCol, hs])
  obtain ⟨ib, hibe, _, hibb⟩ := minmaxScale_ok
    ((cumcount (sortedByUserTs rs)).map (fun p => w p.2)) (by
      simp only [ne_eq, List.map_eq_nil_iff, cumcount]
      intro h
      have := cumcountAux_length (sortedByUserTs rs) (fun _ => 0)
      rw [h] at this
      exact hs (List.length_eq_zero.mp this.symm))
  obtain ⟨dbs, hdbe, hlen, hdbb⟩ := dbCols_ok attrs (sortedByUserTs rs) hs
  refine ⟨pb :: ib :: dbs, ?_, by simp [hlen], ?_⟩
  · simp only [buildBiasFeatures, hpbe, hibe, hdbe]
  · intro col hcol
    rcases List.mem_cons.mp hcol with rfl | hcol
    · exact hpbb
    rcases List.mem_cons.mp hcol with rfl | hcol
    · exact hibb
    · exact hdbb col hcol

/-- Witness for C7 at a one-interaction corpus with one tracked
attribute. -/
theorem c7_witness :
    ([⟨1, 10, 5, 0⟩] : List RatingRow) ≠ [] ∧
    ∃ cols, buildBiasFeatures (fun _ => 1) [(true, fun _ => some 1)]
        [⟨1, 10, 5, 0⟩] = .ok cols ∧
      cols.length = 1 + 2 ∧
      ∀ col ∈ cols, ∀ x ∈ col, 0 ≤ x ∧ x ≤ 1 :=
  ⟨List.cons_ne_nil _ _,
    c7_bias_bounds (fun _ => 1) [(true, fun _ => some 1)] [⟨1, 10, 5, 0⟩]
      (List.cons_ne_nil _ _)⟩

/-- Counterexample to C7 as stated: on the empty corpus the feature build
raises sklearn's `ValueError` (0 samples) instead of returning all-zero
bias vectors. -/
theorem c7_counterexample :
    buildBiasFeatures (fun _ => 1) [(true, fun _ => none)] [] =
      .error "ValueError: Found array with 0 sample(s) while MinMaxScaler requires a minimum of 1" :=
  rfl

/-! ## Helper lemmas: stability of the (user, timestamp) lexsort

pandas' multi-column `sort_values` is a stable lexicographic sort, so the
rows of user `u` inside the globally sorted frame are exactly the user's
rows sorted by timestamp (stable in ingestion order) — the next lemmas
prove this for the insertion sort modelling it. -/

/-- Filtering a user's rows ignores the insertion of another user's row. -/
lemma filter_orderedInsert_other (u : ℤ) (x : RatingRow) (hx : ¬ x.user = u) :
    ∀ l : List RatingRow,
      (List.orderedInsert lexLe x l).filter (fun r => r.user == u) =
        l.filter (fun r => r.user == u) := by
  intro l
  induction l with
  | nil => simp [List.orderedInsert, hx]
  | cons y ys ih =>
    show (if lexLe x y then x :: y :: ys else y :: List.orderedInsert lexLe x ys).filter _ = _
    by_cases hxy : lexLe x y
    · rw [if_pos hxy]
      simp [List.filter_cons, hx]
    · rw [if_neg hxy]
      simp only [List.filter_cons, ih]

/-- Inserting a row of user `u` into a lex-sorted list and then filtering
user `u` is the timestamp-ordered insertion into the filtered list. -/
lemma filter_orderedInsert_user (u : ℤ) (x : RatingRow) (hx : x.user = u) :
    ∀ l : List RatingRow, l.Sorted lexLe →
      (List.orderedInsert lexLe x l).filter (fun r => r.user == u) =
        List.orderedInsert tsLe x (l.filter (fun r => r.user == u)) := by
  intro l
  induction l with
  | nil => intro _; simp [List.orderedInsert, hx]
  | cons y ys ih =>
    intro hsort
    have hys : ys.Sorted lexLe := hsort.of_cons
    have hrel : ∀ z ∈ ys, lexLe y z := List.rel_of_sorted_cons hsort
    show (if lexLe x y then x :: y :: ys else y :: List.orderedInsert lexLe x ys).filter _ = _
    by_cases hxy : lexLe x y
    · rw [if_pos hxy]
      by_cases hy : y.user = u
      · have hts : tsLe x y := by
          rcases hxy with h | ⟨_, h⟩
          · rw [hx, hy] at h
            exact absurd h (lt_irrefl u)
          · exact h
        simp [List.filter_cons, hx, hy, List.orderedInsert, hts]
      · have hu_lt : u < y.user := by
          rcases hxy with h | ⟨he, _⟩
          · exact hx ▸ h
          · exact absurd (hx ▸ he).symm hy
        have hnil : ys.filter (fun r => r.user == u) = [] := by
          rw [List.filter_eq_nil_iff]
          intro z hz
          have hyz : u < z.user := by
            rcases hrel z hz with h | ⟨he, _⟩
            · exact hu_lt.trans h
            · exact he ▸ hu_lt
          simp only [beq_iff_eq]
          exact fun h => absurd (h ▸ hyz) (lt_irrefl u)
        simp [List.filter_cons, hx, hy, hnil, List.orderedInsert]
    · rw [if_neg hxy]
      by_cases hy : y.user = u
      · have hnts : ¬ tsLe x y := fun hts =>
          hxy (Or.inr ⟨hx.trans hy.symm, hts⟩)
        have hyb : (y.user == u) = true := by simp [hy]
        rw [List.filter_cons, if_pos hyb, ih hys, List.filter_cons, if_pos hyb]
        show _ = if tsLe x y then _ else _
        rw [if_neg hnts]
      · have hyb : ¬ ((y.user == u) = true) := by simp [hy]
        rw [List.filter_cons, if_neg hyb, ih hys, List.filter_cons, if_neg hyb]

/-- The rows of user `u` in the (user, timestamp)-lexsorted corpus are
the user's rows sorted by timestamp (both sorts stable). -/
lemma filter_insertionSort_lex (u : ℤ) : ∀ rs : List RatingRow,
    (List.insertionSort lexLe rs).filter (fun r => r.user == u) =
      List.insertionSort tsLe (rs.filter (fun r => r.user == u)) := by
  intro rs
  induction rs with
  | nil => rfl
  | cons x xs ih =>
    show (List.orderedInsert lexLe x (List.insertionSort lexLe xs)).filter _ = _
    by_cases hx : x.user = u
    · rw [filter_orderedInsert_user u x hx _ (List.sorted_insertionSort lexLe xs), ih]
      simp [List.filter_cons, hx, List.insertionSort]
    · rw [filter_orderedInsert_other u x hx _, ih]
      simp [List.filter_cons, hx]

/-- Restricting `cumcount` to the rows of one user enumerates them
`cnt u, cnt u + 1, ...` in order. -/
lemma cumcountAux_filter (u : ℤ) : ∀ (l : List RatingRow) (cnt : ℤ → ℕ),
    (cumcountAux cnt l).filter (fun p => p.1.user == u) =
      (List.enumFrom (cnt u) (l.filter (fun r => r.user == u))).map
        (fun p => (p.2, p.1)) := by
  intro l
  induction l with
  | nil => intro _; rfl
  | cons x xs ih =>
    intro cnt
    show ((x, cnt x.user) :: cumcountAux (fun v => if v = x.user then cnt v + 1 else cnt v) xs).filter
        (fun p => p.1.user == u) = _
    by_cases hx : x.user = u
    · have hb : (((x, cnt x.user) : RatingRow × ℕ).1.user == u) = true := by
        simp [hx]
      have hcnt : (if u = x.user then cnt u + 1 else cnt u) = cnt u + 1 :=
        if_pos hx.symm
      rw [List.filter_cons, if_pos hb,
        ih (fun v => if v = x.user then cnt v + 1 else cnt v)]
      show ((x, cnt x.user) :: _) = _
      rw [hcnt]
      have hbx : ((x.user == u) : Bool) = true := by simp [hx]
      rw [List.filter_cons, if_pos hbx, List.enumFrom_cons, List.map_cons, hx]
    · have hb : ¬ ((((x, cnt x.user) : RatingRow × ℕ).1.user == u) = true) := by
        simp [hx]
      have hcnt : (if u = x.user then cnt u + 1 else cnt u) = cnt u :=
        if_neg (fun h => hx h.symm)
      rw [List.filter_cons, if_neg hb,
        ih (fun v => if v = x.user then cnt v + 1 else cnt v)]
      rw [hcnt]
      have hbx : ¬ (((x.user == u) : Bool) = true) := by simp [hx]
      rw [List.filter_cons, if_neg hbx]

/-- `cumcount` restricted to one user's rows enumerates them from 0. -/
lemma cumcount_filter (u : ℤ) (l : List RatingRow) :
    (cumcount l).filter (fun p => p.1.user == u) =
      ((l.filter (fun r => r.user == u)).enum).map (fun p => (p.2, p.1)) := by
  unfold cumcount
  rw [cumcountAux_filter u l (fun _ => 0), List.enum_eq_enumFrom]

/-! ## Claim C6 -/

/-- **C6** (amended, combined_biases.py part): for every user `u`, item
`i` and decay weight `w` (in the source `w k = exp(-0.01 * k)`), the
pre-normalization interaction bias of combined_biases.py — global stable
sort by (user, timestamp), `cumcount` per user, then
`sum(rating * w) / sum(w)` over the `groupby(["UserID", "MovieID"])`
cell — equals the claim's formula: the decay-weighted average rating over
the user's interactions with `i`, indexed by zero-based recency position
in the user's timestamp-ascending order. -/
theorem c6_ib_weighted_average (w : ℕ → ℚ) (rs : List RatingRow) (u i : ℤ) :
    ibCode w rs u i = ibSpecFormula w rs u i := by
  have key : (cumcount (sortedByUserTs rs)).filter
      (fun p => p.1.user == u && p.1.item == i) =
      ((userHistory rs u).enum.filter (fun p => p.2.item == i)).map
        (fun p => (p.2, p.1)) := by
    have h1 : (cumcount (sortedByUserTs rs)).filter
        (fun p => p.1.user == u && p.1.item == i) =
        ((cumcount (sortedByUserTs rs)).filter (fun p => p.1.user == u)).filter
          (fun p => p.1.item == i) := by
      rw [List.filter_filter]
      exact (List.filter_congr fun p _ => Bool.and_comm _ _).symm
    rw [h1, cumcount_filter u (sortedByUserTs rs), List.filter_map]
    have h2 : (sortedByUserTs rs).filter (fun r => r.user == u) =
        userHistory rs u := filter_insertionSort_lex u rs
    rw [h2]
    rfl
  simp only [ibCode, ibSpecFormula]
  rw [key]
  simp only [List.map_map]
  rfl

/-- The decay stand-in used by the C6 counterexample: a strictly
decreasing positive rational decay playing the role of
`exp(-0.01 * k)` (whose exact values are irrational).  The disagreement
exhibited below holds for any decay with values in `(0, 1]`: the
weighted average of the ratings 4 and 2 lies in `[2, 4]` while the
per-row value is at most 1. -/
def wStandIn : ℕ → ℚ := fun k => (99 / 100) ^ k

/-- The two-interaction corpus of the C6 counterexample: user 1 rates
item 5 twice (rating 4 at t=0, rating 2 at t=1). -/
def c6Corpus : List RatingRow := [⟨1, 5, 4, 0⟩, ⟨1, 5, 2, 1⟩]

/-- Counterexample to C6 as stated for train_inital_model.py: in
`build_bias_features` the pre-normalization IB of an interaction row is
the raw decay weight `w idx` itself (no rating-weighted aggregation), so
for a (user, item) pair rated twice the second row's IB (`w 1 = 0.99`)
differs from the claim's decay-weighted average
(`(4·1 + 2·0.99) / (1 + 0.99) = 598/199 ≈ 3.005`). -/
theorem c6_counterexample :
    (ibTrainRaw wStandIn c6Corpus).map (fun p => p.2) = [1, 99 / 100] ∧
    ibSpecFormula wStandIn c6Corpus 1 5 = 598 / 199 ∧
    (99 / 100 : ℚ) ≠ 598 / 199 := by
  have hsort : sortedByUserTs c6Corpus = c6Corpus := by
    apply List.Sorted.insertionSort_eq
    simp only [c6Corpus, List.sorted_cons, List.mem_singleton, List.sorted_singleton,
      List.not_mem_nil, lexLe]
    norm_num
  have hcc : cumcount c6Corpus =
      [(⟨1, 5, 4, 0⟩, 0), (⟨1, 5, 2, 1⟩, 1)] := rfl
  have huh : userHistory c6Corpus 1 = c6Corpus := by
    have hf : c6Corpus.filter (fun r => r.user == 1) = c6Corpus := rfl
    unfold userHistory
    rw [hf]
    apply List.Sorted.insertionSort_eq
    simp only [c6Corpus, List.sorted_cons, List.mem_singleton, List.sorted_singleton,
      List.not_mem_nil, tsLe]
    norm_num
  refine ⟨?_, ?_, by norm_num⟩
  · unfold ibTrainRaw
    rw [hsort, hcc]
    norm_num [wStandIn]
  · unfold ibSpecFormula
    rw [huh]
    show ((List.filter _ (List.enum c6Corpus)).map _).sum /
      ((List.filter _ (List.enum c6Corpus)).map _).sum = _
    have henum : List.enum c6Corpus =
        [(0, ⟨1, 5, 4, 0⟩), (1, ⟨1, 5, 2, 1⟩)] := rfl
    rw [henum]
    have hfil : ([((0 : ℕ), (⟨1, 5, 4, 0⟩ : RatingRow)), (1, ⟨1, 5, 2, 1⟩)]).filter
        (fun p => p.2.item == 5) = [(0, ⟨1, 5, 4, 0⟩), (1, ⟨1, 5, 2, 1⟩)] := rfl
    rw [hfil]
    show (4 * wStandIn 0 + (2 * wStandIn 1 + 0)) /
      (wStandIn 0 + (wStandIn 1 + 0)) = (598 / 199 : ℚ)
    norm_num [wStandIn]

/-! ## Claim C1 -/

/-- `NeuralCF.forward` only reads the queried user's rows, the item
tables, and the dense layers: models agreeing there score alike. -/
lemma forwardOne_congr (M2 M : CFModel) (u i : ℕ)
    (hdim : M2.dim = M.dim) (hl1 : M2.l1 = M.l1) (hl2 : M2.l2 = M.l2)
    (hw : M2.outW = M.outW) (hb : M2.outB = M.outB)
    (hitemM : M2.itemMlp = M.itemMlp) (hitemG : M2.itemGmf = M.itemGmf)
    (huM : ∀ c, M2.userMlp.entry u c = M.userMlp.entry u c)
    (huG : ∀ c, M2.userGmf.entry u c = M.userGmf.entry u c) :
    forwardOne M2 u i = forwardOne M u i := by
  unfold forwardOne
  rw [hdim, hl1, hl2, hw, hb, hitemM, hitemG, funext huM, funext huG]

/-- Every example of the encoded batch carries the user index the
(constant) transformed user column supplied. -/
lemma zipWith_mk_uIdx (uNew : ℕ) :
    ∀ (l1 : List ℕ) (l2 : List (ℕ × ℚ × ℚ)), (∀ v ∈ l1, v = uNew) →
      ∀ e ∈ List.zipWith (fun u pr => FTExample.mk u pr.1 pr.2.1 pr.2.2) l1 l2,
        e.uIdx = uNew := by
  intro l1
  induction l1 with
  | nil => intro l2 _ e he; simp at he
  | cons a l ih =>
    intro l2 h e he
    cases l2 with
    | nil => simp at he
    | cons b bs =>
      rcases List.mem_cons.mp he with rfl | hrest
      · exact h a (by simp)
      · exact ih bs (fun v hv => h v (by simp [hv])) e hrest

/-- **C1** (amended): running `fine_tune_user` for a new user id whose
batch rows all carry that id, *provided the appended encoder resolves the
new id to a fresh index `uNew`* (hypothesis `htr` — guaranteed when the
new id exceeds every id already in `classes_`, keeping the array sorted
for `np.searchsorted`; see the counterexample for what happens
otherwise): the item-embedding tables, the MLP and output layers are
returned bit-for-bit unchanged (`requires_grad` freeze), the
`CombinedBiasInteractionModule` is read-only throughout (it is excluded
from the optimizer and only evaluated), both user-embedding tables keep
every row other than `uNew` bit-for-bit unchanged (those rows receive
identically-zero gradients, and an Adam step with zero gradient and zero
moments is the identity for any square-root stand-in), and hence the
score of every pre-existing user index against every item is
bit-for-bit unchanged. -/
theorem c1_isolation (sigQ sqQ : ℚ → ℚ) (M0 : CFModel) (J : JBF)
    (uEnc iEnc : LEnc) (bl : ℤ → Option (Fin 6 → ℚ)) (newId : ℤ)
    (ratings : List RatingInput) (uNew : ℕ) (iList : List ℕ)
    (hnew : newId ∉ uEnc.classes)
    (hall : ∀ x ∈ ratings, x.userId = newId)
    (htr : leTransform1 ⟨uEnc.classes ++ [newId]⟩ newId = .ok uNew)
    (hitems : leTransformList iEnc (ratings.map (·.movieId)) = .ok iList) :
    ∃ Mf, fineTuneUser sigQ sqQ M0 J uEnc iEnc bl newId ratings =
        .ok (Mf, ⟨uEnc.classes ++ [newId]⟩) ∧
      Mf.itemMlp = M0.itemMlp ∧ Mf.itemGmf = M0.itemGmf ∧
      Mf.l1 = M0.l1 ∧ Mf.l2 = M0.l2 ∧ Mf.outW = M0.outW ∧ Mf.outB = M0.outB ∧
      ∀ u', u' < M0.userMlp.rows → u' < M0.userGmf.rows → u' ≠ uNew →
        (∀ c, Mf.userMlp.entry u' c = M0.userMlp.entry u' c) ∧
        (∀ c, Mf.userGmf.entry u' c = M0.userGmf.entry u' c) ∧
        ∀ i, forwardOne Mf u' i = forwardOne M0 u' i := by
  have hus : leTransformList ⟨uEnc.classes ++ [newId]⟩ (ratings.map (·.userId))
      = .ok ((ratings.map (·.userId)).map fun _ => uNew) :=
    leTransformList_const _ newId uNew htr _ (by
      intro v hv
      obtain ⟨x, hx, rfl⟩ := List.mem_map.mp hv
      exact hall x hx)
  set M1 : CFModel :=
    { M0 with userMlp := M0.userMlp.appendRow M0.userMlp.colMean
              userGmf := M0.userGmf.appendRow M0.userGmf.colMean } with hM1
  set batch := List.zipWith (fun u pr => FTExample.mk u pr.1 pr.2.1 pr.2.2)
    ((ratings.map (·.userId)).map fun _ => uNew)
    (iList.zip ((ratings.map (·.rating)).zip
      (ratings.map fun x => jbfForward sigQ J
        (fun c => ((bl x.movieId).getD (fun _ => 0)) c)))) with hbatch
  have hmem : ∀ e ∈ batch, e.uIdx = uNew := by
    rw [hbatch]
    exact zipWith_mk_uIdx uNew _ _ (by
      intro v hv
      obtain ⟨_, _, rfl⟩ := List.mem_map.mp hv
      rfl)
  have hf := ftIter_fields sqQ batch ftEpochs 1
    (M1, adamInit M1.userMlp, adamInit M1.userGmf)
  refine ⟨ftTrain sqQ M1 batch,
    fineTuneUser_new_eq sigQ sqQ M0 J uEnc iEnc bl newId ratings _ iList hnew
      hus hitems,
    hf.2.1, hf.2.2.1, hf.2.2.2.1, hf.2.2.2.2.1, hf.2.2.2.2.2.1,
    hf.2.2.2.2.2.2.1, ?_⟩
  intro u' h1 h2 hne
  have hneb : ∀ e ∈ batch, e.uIdx ≠ u' :=
    fun e he h => hne (h ▸ hmem e he)
  have hfro := ftTrain_frozen sqQ M1 batch u' hneb
  have huM : ∀ c, (ftTrain sqQ M1 batch).userMlp.entry u' c =
      M0.userMlp.entry u' c := by
    intro c
    rw [hfro.1 c]
    show (if u' = M0.userMlp.rows then _ else M0.userMlp.entry u' c) = _
    rw [if_neg (Nat.ne_of_lt h1)]
  have huG : ∀ c, (ftTrain sqQ M1 batch).userGmf.entry u' c =
      M0.userGmf.entry u' c := by
    intro c
    rw [hfro.2 c]
    show (if u' = M0.userGmf.rows then _ else M0.userGmf.entry u' c) = _
    rw [if_neg (Nat.ne_of_lt h2)]
  refine ⟨huM, huG, fun i => ?_⟩
  exact forwardOne_congr _ M0 u' i hf.1 hf.2.2.2.1 hf.2.2.2.2.1
    hf.2.2.2.2.2.1 hf.2.2.2.2.2.2.1 hf.2.1 hf.2.2.1 huM huG

/-- Witness for C1: one existing user (id 1, index 0), new user id 2
(greater than every existing id, so `searchsorted` resolves it to the
fresh index 1), one rating on the known movie 10. -/
theorem c1_witness :
    (2 : ℤ) ∉ ([1] : List ℤ) ∧
    ∃ Mf, fineTuneUser id id tinyModel tinyJBF ⟨[1]⟩ ⟨[10]⟩ (fun _ => none) 2
        [⟨2, 10, 5⟩] = .ok (Mf, ⟨[1, 2]⟩) ∧
      Mf.itemMlp = tinyModel.itemMlp ∧ Mf.itemGmf = tinyModel.itemGmf ∧
      Mf.l1 = tinyModel.l1 ∧ Mf.l2 = tinyModel.l2 ∧
      Mf.outW = tinyModel.outW ∧ Mf.outB = tinyModel.outB ∧
      ∀ u', u' < tinyModel.userMlp.rows → u' < tinyModel.userGmf.rows →
        u' ≠ 1 →
        (∀ c, Mf.userMlp.entry u' c = tinyModel.userMlp.entry u' c) ∧
        (∀ c, Mf.userGmf.entry u' c = tinyModel.userGmf.entry u' c) ∧
        ∀ i, forwardOne Mf u' i = forwardOne tinyModel u' i :=
  ⟨by decide,
    c1_isolation id id tinyModel tinyJBF ⟨[1]⟩ ⟨[10]⟩ (fun _ => none) 2
      [⟨2, 10, 5⟩] 1 [0] (by decide) (by decide) rfl rfl⟩

/-- The concrete model of the C1 counterexample: two existing users
(ids 5 and 10 at indices 0 and 1), two items, embedding width 1, trivial
MLP, identity output layer; item-GMF rows `[1]` and `[-1]`. -/
def c1Model : CFModel where
  dim := 1
  userMlp := ⟨2, 1, fun _ _ => 0⟩
  itemMlp := ⟨2, 1, fun _ _ => 0⟩
  userGmf := ⟨2, 1, fun _ _ => 0⟩
  itemGmf := ⟨2, 1, fun r _ => if r = 0 then 1 else -1⟩
  l1 := ⟨0, 2, fun _ _ => 0, fun _ => 0⟩
  l2 := ⟨0, 0, fun _ _ => 0, fun _ => 0⟩
  outW := fun _ => 1
  outB := 0

/-- `c1Model` after `fine_tune_user` appends the mean rows for the new
user. -/
def c1Appended : CFModel :=
  { c1Model with
    userMlp := c1Model.userMlp.appendRow c1Model.userMlp.colMean
    userGmf := c1Model.userGmf.appendRow c1Model.userGmf.colMean }

/-- The batch `fine_tune_user` encodes for the counterexample input:
both rows resolve to user index 0 — the *pre-existing* user 5. -/
def c1Batch : List FTExample := [⟨0, 0, 4, 0⟩, ⟨0, 1, 2, 0⟩]

/-- Counterexample to C1 as stated: the new user id 1 is smaller than
the existing ids 5 and 10, so `np.append` leaves `classes_ = [5, 10, 1]`
unsorted and `np.searchsorted` silently resolves id 1 to index 0 — the
pre-existing user 5's row.  `fine_tune_user` then trains on a batch whose
user index is 0 throughout, and the very first epoch's gradient on user
5's GMF embedding row is `-2 ≠ 0`: a pre-existing user's embedding row
receives a nonzero gradient update, falsifying the isolation claim. -/
theorem c1_counterexample :
    leTransform1 ⟨[5, 10, 1]⟩ 1 = .ok 0 ∧
    fineTuneUser (fun _ => 0) id c1Model tinyJBF ⟨[5, 10]⟩ ⟨[20, 30]⟩
      (fun _ => none) 1 [⟨1, 20, 4⟩, ⟨1, 30, 2⟩] =
      .ok (ftTrain id c1Appended c1Batch, ⟨[5, 10, 1]⟩) ∧
    (gradUserGmf c1Appended c1Batch).entry 0 0 = -2 := by
  refine ⟨rfl, ?_, ?_⟩
  · exact fineTuneUser_new_eq (fun _ => 0) id c1Model tinyJBF ⟨[5, 10]⟩
      ⟨[20, 30]⟩ (fun _ => none) 1 [⟨1, 20, 4⟩, ⟨1, 30, 2⟩] [0, 0] [0, 1]
      (by decide) rfl rfl
  · show ((c1Batch.map fun e =>
        if e.uIdx = 0 then exGradGmf c1Appended e (exD c1Appended c1Batch.length e) 0
        else 0)).sum = -2
    norm_num [c1Batch, exGradGmf, exD, forwardOne, forwardCore, c1Appended,
      c1Model, Mat.appendRow, Mat.colMean, sumR, concatV, linFwd, reluQ,
      lamFair, Finset.sum_range_succ, Finset.sum_range_zero]

end Spec2Proof
